import Mathlib

/-! Debounced switch input (`switch.c`, `include/switch.h`).

A shallow embedding of the switch driver: the per-switch table `state[NUM_SWITCHES]`,
the edge interrupt handler `irq_handler_sw`, the alarm callback `debounce`, and the public
calls `switch_init`, `switch_config` and `switch_read_blocking`.

The driver talks to the hardware and to the SDK only through a handful of calls.
Values it reads from the outside (pending edge events, the pin level, the microsecond counter,
the handle picked by the alarm pool) are inputs of the embedded functions; the calls it makes
are collected in a log of `Call`s that is returned next to the new state.
-/

namespace Switch

/-! ## Build-time constants -/

/-- Build-time constants of `switch.c` and `switch.h`; every one of them sits under
`#if !defined(...)` in the source, the defaults are the values given there. -/
structure Config where
  /-- Number of switches (`switch.h`). -/
  NUM_SWITCHES : Nat := 4
  /-- How many microseconds to wait in order to resolve possible bounce. -/
  SWITCH_DEBOUNCE_US : Nat := 1000
  /-- How many events can the queue hold. -/
  SWITCH_QUEUE_SIZE : Nat := 16
  /-- Enable pull up on switch pins. -/
  SWITCH_PULL_UP : Bool := true
deriving DecidableEq, Repr

/-- The default build. -/
def defaultConfig : Config := {}

/-- SDK constant `GPIO_IRQ_EDGE_FALL`. -/
def GPIO_IRQ_EDGE_FALL : Nat := 4

/-- SDK constant `GPIO_IRQ_EDGE_RISE`. -/
def GPIO_IRQ_EDGE_RISE : Nat := 8

/-- The mask `GPIO_IRQ_EDGE_RISE | GPIO_IRQ_EDGE_FALL` used by the handler and by
`switch_config`. -/
def event_mask : Nat := GPIO_IRQ_EDGE_RISE ||| GPIO_IRQ_EDGE_FALL

/-! ## Data -/

/-- One entry of the table, `struct state`. -/
structure state where
  /-- Field `uint8_t sw_pin`. -/
  sw_pin : Nat
  /-- Field `uint32_t sw_mtime`. -/
  sw_mtime : Nat
  /-- Field `alarm_id_t sw_alarm` (a signed 32-bit handle). -/
  sw_alarm : Int
  /-- Field `bool sw : 1`. -/
  sw : Bool
  /-- Field `bool configured : 1`. -/
  configured : Bool
deriving DecidableEq, Repr

/-- The event handed to the consumer, `struct switch_event`. -/
structure switch_event where
  /-- Switch number, `uint8_t num`. -/
  num : Nat
  /-- State of the switch. -/
  sw : Bool
deriving DecidableEq, Repr

/-- Modelled from the spec: the SDK queue `queue_t` is not part of the sources. The spec
describes it as a bounded FIFO of switch events whose capacity is fixed when it is
initialised. `elems` holds the queued events, oldest first. -/
structure queue_t where
  /-- Queued events, head of the queue first. -/
  elems : List switch_event
  /-- Capacity given to `queue_init`. -/
  element_count : Nat
deriving DecidableEq, Repr

/-- Modelled from the spec: one scheduled, not yet fired one-shot callback of the SDK alarm
pool. `slot` is the index of the table entry passed as the callback argument, `due` the
microsecond time at which it is to fire. -/
structure alarm where
  /-- Handle under which the alarm can be cancelled. -/
  id : Int
  /-- Index `i` of the argument `&state[i]`. -/
  slot : Nat
  /-- Time at which the callback is due. -/
  due : Nat
deriving DecidableEq, Repr

/-- Everything the driver owns: the static table `state`, the static `queue`, and the
alarms it has outstanding in the default alarm pool. -/
structure Sys where
  /-- The table `static struct state state[NUM_SWITCHES]`, by index. The C array has the
  entries below `NUM_SWITCHES`; an index from `NUM_SWITCHES` on stands for the memory behind
  the array, which `switch_config` reaches because it indexes `state[num]` unchecked. -/
  state : Nat → state
  /-- The event queue `static queue_t queue`. -/
  queue : queue_t
  /-- Outstanding alarms of the alarm pool. -/
  alarms : List alarm

/-- Calls the driver makes into the SDK, in program order. -/
inductive Call where
  | gpio_acknowledge_irq (pin : Nat) (mask : Nat)
  | cancel_alarm (id : Int)
  | add_alarm_in_us (delay : Nat) (slot : Nat) (fire_if_past : Bool) (ret : Int)
  | queue_try_add (ev : switch_event) (ok : Bool)
  | queue_init (element_count : Nat)
  | alarm_pool_init_default
  | irq_set_enabled (enabled : Bool)
  | gpio_init (pin : Nat)
  | gpio_set_dir (pin : Nat) (out : Bool)
  | gpio_pull_up (pin : Nat)
  | gpio_disable_pulls (pin : Nat)
  | gpio_add_raw_irq_handler (pin : Nat)
  | gpio_set_irq_enabled (pin : Nat) (mask : Nat) (enabled : Bool)
  | printf (num : Nat) (pin : Nat)
  | queue_remove_blocking
deriving DecidableEq, Repr

/-- Ways a call of the public API can fail to return. -/
inductive Fault where
  /-- The call ended in `panic(...)`. -/
  | panic
deriving DecidableEq, Repr

/-! ## Platform primitives -/

/-- The 32-bit microsecond counter `time_us_32()`: the low 32 bits of the running time `t`. -/
def time_us_32 (t : Nat) : Nat := t % 2 ^ 32

/-- Subtraction of two `uint32_t` values, as in `now - prev`. -/
def u32_sub (a b : Nat) : Nat := (a % 2 ^ 32 + (2 ^ 32 - b % 2 ^ 32)) % 2 ^ 32

/-- Modelled from the spec: non-blocking enqueue of the bounded FIFO. When the queue is full
the new event is dropped and the call reports `false`. -/
def queue_try_add (q : queue_t) (ev : switch_event) : queue_t × Bool :=
  if q.elems.length < q.element_count then ({ q with elems := q.elems ++ [ev] }, true)
  else (q, false)

/-- Modelled from the spec: blocking dequeue of the bounded FIFO. It hands out the head of
the queue; on an empty queue the caller stays blocked, which is `none` here. -/
def queue_remove_blocking (q : queue_t) : Option (switch_event × queue_t) :=
  match q.elems with
  | [] => none
  | ev :: rest => some (ev, { q with elems := rest })

/-- Modelled from the spec: `cancel_alarm(id)` takes the alarm with this handle out of the
pool, so that it does not fire. -/
def cancel_alarm (pool : List alarm) (id : Int) : List alarm :=
  pool.filter (fun a => decide (a.id ≠ id))

/-- Modelled from the spec: `add_alarm_in_us(delay, debounce, &state[slot], true)` at time
`t`. The pool either schedules the callback and returns a handle, or it has no room and
returns `-1`. `pick` is the handle the pool would hand out: the SDK documents handles of
scheduled alarms as positive, and no two outstanding alarms share one; any other `pick`
stands for a pool without room. -/
def add_alarm_in_us (pool : List alarm) (pick : Int) (t delay slot : Nat) : List alarm × Int :=
  if 0 < pick ∧ ∀ a ∈ pool, a.id ≠ pick then
    (pool ++ [{ id := pick, slot := slot, due := t + delay }], pick)
  else (pool, -1)

/-- What the handler reads from the outside while it works on one table entry. -/
structure irq_input where
  /-- Result of `gpio_get_irq_event_mask(st->sw_pin)`. -/
  events : Nat
  /-- Result of `gpio_get(st->sw_pin)`, the raw pin level. -/
  gpio : Bool
  /-- Running microsecond time at which `time_us_32()` is read. -/
  t : Nat
  /-- Handle the alarm pool would hand out to `add_alarm_in_us`. -/
  pick : Int

/-- Store `st` at index `i` of the table. -/
def set_state (s : Sys) (i : Nat) (st : state) : Sys :=
  { s with state := Function.update s.state i st }

/-! ## The driver -/

/-- Alarm handler `debounce(id, arg)` with `arg = &state[i]`; `gpio` is the result of
`gpio_get(st->sw_pin)`. Returns the new state, the calls made and the return value. -/
def debounce (_id : Int) (i : Nat) (gpio : Bool) (s : Sys) : Sys × List Call × Int :=
  -- Alarm has timed out and we got called. Clear the handle.
  let st : state := { s.state i with sw_alarm := -1 }
  -- Read the current state.
  let sw := !gpio
  -- Filter out repeated events as usual.
  if st.sw = sw then (set_state s i st, [], 0)
  else
    -- Update the state.
    let st : state := { st with sw := sw }
    -- Emit the event.
    let event : switch_event := { num := i % 256, sw := sw }
    let r := queue_try_add s.queue event
    ({ set_state s i st with queue := r.1 }, [Call.queue_try_add event r.2], 0)

/-- The part of `irq_handler_sw` after the repeated-event filter, for an entry `st` of a
configured switch with a pending edge whose sampled state `sw` differs from `st.sw`. -/
def irq_change (cfg : Config) (i : Nat) (inp : irq_input) (s : Sys) (sw : Bool) :
    Sys × List Call :=
  let st := s.state i
  -- We might have set up an alarm to combat bounce. If we did, cancel it.
  let pool := if 0 ≤ st.sw_alarm then cancel_alarm s.alarms st.sw_alarm else s.alarms
  let cancelled := if 0 ≤ st.sw_alarm then [Call.cancel_alarm st.sw_alarm] else []
  let st : state := if 0 ≤ st.sw_alarm then { st with sw_alarm := -1 } else st
  let prev := st.sw_mtime
  let now := time_us_32 inp.t
  if u32_sub now prev < cfg.SWITCH_DEBOUNCE_US then
    -- We are going to follow up on this change, but we ignore it for now.
    let r := add_alarm_in_us pool inp.pick inp.t cfg.SWITCH_DEBOUNCE_US i
    ({ set_state s i { st with sw_alarm := r.2 } with alarms := r.1 },
      cancelled ++ [Call.add_alarm_in_us cfg.SWITCH_DEBOUNCE_US i true r.2])
  else
    -- There was long enough delay, so we trust this value.
    let st : state := { st with sw_mtime := now, sw := sw }
    -- Emit the event.
    let event : switch_event := { num := i % 256, sw := st.sw }
    let r := queue_try_add s.queue event
    ({ set_state s i st with alarms := pool, queue := r.1 },
      cancelled ++ [Call.queue_try_add event r.2])

/-- One iteration of the loop of `irq_handler_sw`, for index `i`. -/
def irq_slot (cfg : Config) (i : Nat) (inp : irq_input) (s : Sys) : Sys × List Call :=
  let st := s.state i
  -- Skip unconfigured switches.
  if st.configured = false then (s, [])
  else if inp.events &&& event_mask = 0 then (s, [])
  else
    -- Acknowledge interrupt, read current switch state.
    let sw := !inp.gpio
    -- Filter out repeated events.
    if st.sw = sw then (s, [Call.gpio_acknowledge_irq st.sw_pin event_mask])
    else
      let r := irq_change cfg i inp s sw
      (r.1, Call.gpio_acknowledge_irq st.sw_pin event_mask :: r.2)

/-- The iterations `lo, lo+1, ..., lo+n-1` of the loop of `irq_handler_sw`; `inp i` is what
iteration `i` reads from the outside. -/
def irq_loop (cfg : Config) (inp : Nat → irq_input) : Nat → Nat → Sys → Sys × List Call
  | _, 0, s => (s, [])
  | lo, n + 1, s =>
    let r := irq_slot cfg lo (inp lo) s
    let r2 := irq_loop cfg inp (lo + 1) n r.1
    (r2.1, r.2 ++ r2.2)

/-- The interrupt handler `irq_handler_sw`: `for (int i = 0; i < NUM_SWITCHES; i++)`. -/
def irq_handler_sw (cfg : Config) (inp : Nat → irq_input) (s : Sys) : Sys × List Call :=
  irq_loop cfg inp 0 cfg.NUM_SWITCHES s

/-- The zero-initialised table entry of the static array. -/
def zero_state : state :=
  { sw_pin := 0, sw_mtime := 0, sw_alarm := 0, sw := false, configured := false }

/-- The driver at program start: static storage is zero-initialised, no alarm is scheduled. -/
def boot : Sys :=
  { state := fun _ => zero_state, queue := { elems := [], element_count := 0 }, alarms := [] }

/-- Public call `switch_init()`. -/
def switch_init (cfg : Config) (s : Sys) : Sys × List Call :=
  ({ s with queue := { elems := [], element_count := cfg.SWITCH_QUEUE_SIZE } },
    [Call.queue_init cfg.SWITCH_QUEUE_SIZE, Call.alarm_pool_init_default,
      Call.irq_set_enabled true])

/-- Public call `switch_config(num, sw_pin)`. As in the source, `state[num]` is indexed
without any test of `num` against `NUM_SWITCHES`. -/
def switch_config (cfg : Config) (num sw_pin : Nat) (s : Sys) : Except Fault (Sys × List Call) :=
  if (s.state num).configured then Except.error Fault.panic
  else
    let pin := sw_pin % 256
    let st : state := { s.state num with configured := true, sw_pin := pin }
    Except.ok (set_state s num st,
      [Call.gpio_init pin, Call.gpio_set_dir pin false,
        if cfg.SWITCH_PULL_UP then Call.gpio_pull_up pin else Call.gpio_disable_pulls pin,
        Call.gpio_add_raw_irq_handler pin,
        Call.gpio_set_irq_enabled pin event_mask true,
        Call.printf num pin])

/-- Public call `switch_read_blocking(event)`: the event read and the new state, or `none`
while the caller is blocked on an empty queue. -/
def switch_read_blocking (s : Sys) : Option (switch_event × Sys) :=
  match queue_remove_blocking s.queue with
  | none => none
  | some (ev, q) => some (ev, { s with queue := q })

/-! ## Executions -/

/-- Modelled from the spec: the alarm pool fires the outstanding alarm with handle `id` and
runs its callback `debounce(id, &state[slot])`; `gpio` is the pin level the callback reads.
An alarm that is not outstanding (never scheduled, already fired, or cancelled) does not
fire: `none`. A callback returning `0` is not scheduled again. -/
def fire_alarm (id : Int) (gpio : Bool) (s : Sys) : Option (Sys × List Call) :=
  match s.alarms.find? (fun a => decide (a.id = id)) with
  | none => none
  | some a =>
    let r := debounce a.id a.slot gpio { s with alarms := cancel_alarm s.alarms a.id }
    if r.2.2 = 0 then some (r.1, r.2.1)
    else some ({ r.1 with alarms := r.1.alarms ++ [{ a with due := a.due + r.2.2.natAbs }] }, r.2.1)

/-- What can happen to the driver after `switch_init`. -/
inductive Action where
  /-- The application calls `switch_config(num, sw_pin)`. -/
  | config (num sw_pin : Nat)
  /-- The GPIO interrupt runs `irq_handler_sw`; `inp i` is what iteration `i` reads. -/
  | irq (inp : Nat → irq_input)
  /-- The alarm with handle `id` fires and `debounce` reads the pin level `gpio`. -/
  | fire (id : Int) (gpio : Bool)
  /-- The application calls `switch_read_blocking`. -/
  | read

/-- One action. `none` when the action cannot take place or does not return: a
`switch_config` that faults, an alarm that is not outstanding. A `switch_read_blocking` on
an empty queue leaves the caller blocked and the driver as it is. -/
def step (cfg : Config) (a : Action) (s : Sys) : Option (Sys × List Call) :=
  match a with
  | Action.config num sw_pin =>
    match switch_config cfg num sw_pin s with
    | Except.ok r => some r
    | Except.error _ => none
  | Action.irq inp => some (irq_handler_sw cfg inp s)
  | Action.fire id gpio => fire_alarm id gpio s
  | Action.read =>
    match switch_read_blocking s with
    | none => some (s, [Call.queue_remove_blocking])
    | some (_, s1) => some (s1, [Call.queue_remove_blocking])

/-- A sequence of actions, with the calls made along the way. -/
def run (cfg : Config) : List Action → Sys → Option (Sys × List Call)
  | [], s => some (s, [])
  | a :: rest, s =>
    match step cfg a s with
    | none => none
    | some r =>
      match run cfg rest r.1 with
      | none => none
      | some r2 => some (r2.1, r.2 ++ r2.2)

/-- States the driver can be in after `switch_init` and any sequence of actions. -/
def Reachable (cfg : Config) (s : Sys) : Prop :=
  ∃ acts : List Action, ∃ log : List Call, run cfg acts (switch_init cfg boot).1 = some (s, log)

/-- The accepted transitions between two states of the driver, among the table entries
`lo, ..., lo+n-1` and in index order: an entry whose `sw` differs contributes its index and
its new `sw`. -/
def changes_from (before after : Sys) (lo n : Nat) : List switch_event :=
  (List.range' lo n).filterMap (fun j =>
    if (before.state j).sw = (after.state j).sw then none
    else some { num := j, sw := (after.state j).sw })

/-- The accepted transitions of one action, over the whole table. The handler works
through the table in index order and changes an entry at most once, the callback changes
at most one entry, so this is the order in which the changes were accepted. -/
def changes (cfg : Config) (before after : Sys) : List switch_event :=
  changes_from before after 0 cfg.NUM_SWITCHES

/-- The accepted transitions of a sequence of actions, in the order they were accepted. -/
def accepted (cfg : Config) : List Action → Sys → List switch_event
  | [], _ => []
  | a :: rest, s =>
    match step cfg a s with
    | none => []
    | some r => changes cfg s r.1 ++ accepted cfg rest r.1

/-- The actions of the producer side: a run of the handler, a firing alarm. -/
def is_producer : Action → Bool
  | Action.irq _ => true
  | Action.fire _ _ => true
  | _ => false

/-- The events returned by `n` successive calls of `switch_read_blocking`, up to the call
that blocks. -/
def read_n : Nat → Sys → List switch_event
  | 0, _ => []
  | n + 1, s =>
    match switch_read_blocking s with
    | none => []
    | some (ev, s1) => ev :: read_n n s1

/-- The alarm pool agrees with the table: every outstanding alarm has a positive handle,
belongs to an entry of the table, and its handle is the one stored in that entry; no two
outstanding alarms belong to the same entry. -/
def pool_ok (cfg : Config) (s : Sys) : Prop :=
  (∀ a ∈ s.alarms, 0 < a.id ∧ a.slot < cfg.NUM_SWITCHES ∧ (s.state a.slot).sw_alarm = a.id) ∧
    s.alarms.Pairwise (fun a b => a.slot ≠ b.slot)

/-! ## Sample configurations -/

/-- A sample table entry: a configured switch on pin 15, released, never changed. -/
def sample_state : state :=
  { sw_pin := 15, sw_mtime := 0, sw_alarm := -1, sw := false, configured := true }

/-- A sample driver state in the default build: switches 1 and 2 are configured, the queue
is empty, no alarm is outstanding. -/
def sample_sys : Sys :=
  { state := fun j =>
      if j = 1 then sample_state
      else if j = 2 then { sample_state with sw_pin := 16 }
      else zero_state
    queue := { elems := [], element_count := 16 }
    alarms := [] }

/-- Sample reads of the handler: an edge is pending on every pin, the pins read low (the
switches are pressed), the time is 5000 us, and the alarm pool would hand out handle 3. -/
def sample_input : Nat → irq_input :=
  fun _ => { events := GPIO_IRQ_EDGE_FALL, gpio := false, t := 5000, pick := 3 }

/-- Reads of the handler with an edge pending on the pin of switch `k` only: the pin reads
`gpio`, the time is `t`, the alarm pool would hand out `pick`. -/
def edge_on (k : Nat) (gpio : Bool) (t : Nat) (pick : Int) : Nat → irq_input :=
  fun j => { events := if j = k then event_mask else 0, gpio := gpio, t := t, pick := pick }

/-- The sample state a little later: switch 1 was accepted as pressed at 5000 us, a release
edge at 5100 us was deferred, and its check, alarm 3, is outstanding and due at 6100 us. -/
def pending_sys : Sys :=
  { state := fun j =>
      if j = 1 then { sample_state with sw := true, sw_mtime := 5000, sw_alarm := 3 }
      else sample_sys.state j
    queue := { elems := [], element_count := 16 }
    alarms := [{ id := 3, slot := 1, due := 6100 }] }

/-- From program start: `switch_config(1, 15)`, then switch 1 is pressed at 5000 us, a
release edge follows at 5100 us, the deferred check fires when due at 6100 us and reads the
pin released, and a press edge follows at 6110 us. -/
def spacing_trace : List Action :=
  [Action.config 1 15, Action.irq (edge_on 1 false 5000 3), Action.irq (edge_on 1 true 5100 3),
    Action.fire 3 true, Action.irq (edge_on 1 false 6110 4)]

/-- The queue is the one set up by `switch_init` and holds no more events than it can. -/
def queue_ok (cfg : Config) (s : Sys) : Prop :=
  s.queue.element_count = cfg.SWITCH_QUEUE_SIZE ∧ s.queue.elems.length ≤ s.queue.element_count

/-- From program start: `switch_config(1, 15)`, then `n` edges on switch 1, 2000 us apart
from 5000 us on, sampling pressed, released, pressed, and so on. -/
def toggle_trace (n : Nat) : List Action :=
  Action.config 1 15 ::
    (List.range n).map (fun k => Action.irq (edge_on 1 (k % 2 == 1) (5000 + 2000 * k) 3))

/-- The state after a sequence of actions from program start, when all of them take place. -/
def state_after (cfg : Config) (acts : List Action) : Option Sys :=
  (run cfg acts (switch_init cfg boot).1).map (fun r => r.1)

/-- The state after `toggle_trace 16` from program start in the default build: sixteen
changes of switch 1 were accepted and nothing was read, the queue is full. -/
def full_sys : Sys :=
  (state_after defaultConfig (toggle_trace 16)).getD boot

/-- The bounce scenario, with its time zero at `T`: an edge on switch 0 at `T` sampling
pressed, an edge at `T + 100` sampling released, an edge at `T + 300` sampling pressed, and
the firing of the alarm with handle `pick`, whose callback reads the pin pressed. -/
def bounce_trace (T : Nat) (pick : Int) : List Action :=
  [Action.irq (edge_on 0 false T pick), Action.irq (edge_on 0 true (T + 100) pick),
    Action.irq (edge_on 0 false (T + 300) pick), Action.fire pick false]

/-- The events the driver offered to the queue, in order: the arguments of the
`queue_try_add` calls in a log. -/
def attempts (log : List Call) : List switch_event :=
  log.filterMap (fun c =>
    match c with
    | Call.queue_try_add ev _ => some ev
    | _ => none)

/-- The values of the events for switch `i` in a list of events. -/
def events_of (i : Nat) (evs : List switch_event) : List Bool :=
  (evs.filter (fun e => decide (e.num = i))).map (fun e => e.sw)

/-- Starting from the value `b`, follow a list of values each of which is the negation of
the one before it: the last value reached, or `none` when two neighbours are equal. -/
def toggles : Bool → List Bool → Option Bool
  | b, [] => some b
  | b, x :: xs => if x = !b then toggles x xs else none

/-! ## Basic facts about the loop -/

theorem set_state_same (s : Sys) (i : Nat) (st : state) : (set_state s i st).state i = st := by
  simp [set_state]

theorem irq_change_state_other (cfg : Config) (i j : Nat) (inp : irq_input) (s : Sys)
    (sw : Bool) (h : j ≠ i) : (irq_change cfg i inp s sw).1.state j = s.state j := by
  unfold irq_change
  simp only
  split_ifs <;> simp [set_state, Function.update_noteq h]

theorem irq_slot_state_other (cfg : Config) (i j : Nat) (inp : irq_input) (s : Sys)
    (h : j ≠ i) : (irq_slot cfg i inp s).1.state j = s.state j := by
  unfold irq_slot
  simp only
  split
  · rfl
  · split
    · rfl
    · split
      · rfl
      · exact irq_change_state_other cfg i j inp s _ h

theorem irq_loop_state_outside (cfg : Config) (inp : Nat → irq_input) (n : Nat) :
    ∀ (lo : Nat) (s : Sys) (j : Nat), (j < lo ∨ lo + n ≤ j) →
      (irq_loop cfg inp lo n s).1.state j = s.state j := by
  induction n with
  | zero => intro lo s j _; rfl
  | succ n ih =>
    intro lo s j hj
    simp only [irq_loop]
    rw [ih (lo + 1) _ j (by omega), irq_slot_state_other cfg lo j (inp lo) s (by omega)]

theorem irq_loop_split (cfg : Config) (inp : Nat → irq_input) (a b : Nat) :
    ∀ (lo : Nat) (s : Sys),
      irq_loop cfg inp lo (a + b) s =
        ((irq_loop cfg inp (lo + a) b (irq_loop cfg inp lo a s).1).1,
          (irq_loop cfg inp lo a s).2 ++
            (irq_loop cfg inp (lo + a) b (irq_loop cfg inp lo a s).1).2) := by
  induction a with
  | zero => intro lo s; simp [irq_loop]
  | succ a ih =>
    intro lo s
    have e : a + 1 + b = (a + b) + 1 := by omega
    rw [e]
    simp only [irq_loop]
    rw [ih (lo + 1) _]
    have e2 : lo + 1 + a = lo + (a + 1) := by omega
    simp [e2, List.append_assoc]

/-- The loop of `irq_handler_sw`, cut at iteration `i`: the iterations before `i`, iteration
`i` itself, and the iterations after it. -/
theorem irq_handler_sw_cut (cfg : Config) (inp : Nat → irq_input) (s : Sys) (i : Nat)
    (hi : i < cfg.NUM_SWITCHES) :
    irq_handler_sw cfg inp s =
      ((irq_loop cfg inp (i + 1) (cfg.NUM_SWITCHES - (i + 1))
          (irq_slot cfg i (inp i) (irq_loop cfg inp 0 i s).1).1).1,
        (irq_loop cfg inp 0 i s).2 ++
          ((irq_slot cfg i (inp i) (irq_loop cfg inp 0 i s).1).2 ++
            (irq_loop cfg inp (i + 1) (cfg.NUM_SWITCHES - (i + 1))
              (irq_slot cfg i (inp i) (irq_loop cfg inp 0 i s).1).1).2)) := by
  unfold irq_handler_sw
  have e : cfg.NUM_SWITCHES = i + ((cfg.NUM_SWITCHES - (i + 1)) + 1) := by omega
  conv_lhs => rw [e]
  rw [irq_loop_split]
  have e3 : cfg.NUM_SWITCHES - (i + 1) + 1 = (cfg.NUM_SWITCHES - (i + 1)).succ := rfl
  simp only [Nat.zero_add, irq_loop]

/-- The table entry `i` after the handler is the one left by iteration `i`, which starts
from the entry the handler was entered with. -/
theorem irq_handler_sw_state (cfg : Config) (inp : Nat → irq_input) (s : Sys) (i : Nat)
    (hi : i < cfg.NUM_SWITCHES) :
    (irq_handler_sw cfg inp s).1.state i =
        (irq_slot cfg i (inp i) (irq_loop cfg inp 0 i s).1).1.state i ∧
      (irq_loop cfg inp 0 i s).1.state i = s.state i := by
  constructor
  · rw [irq_handler_sw_cut cfg inp s i hi]
    exact irq_loop_state_outside cfg inp _ (i + 1) _ i (Or.inl (by omega))
  · exact irq_loop_state_outside cfg inp i 0 s i (Or.inr (by omega))

/-! ## One iteration, case by case -/

/-- When `add_alarm_in_us` returns a positive handle, the pool gained exactly that alarm. -/
theorem add_alarm_in_us_scheduled (pool : List alarm) (pick : Int) (t delay slot : Nat)
    (h : 0 < (add_alarm_in_us pool pick t delay slot).2) :
    (add_alarm_in_us pool pick t delay slot).1 =
      pool ++ [{ id := (add_alarm_in_us pool pick t delay slot).2, slot := slot,
                 due := t + delay }] := by
  unfold add_alarm_in_us at h ⊢
  split_ifs at h ⊢
  · rfl
  · simp at h

/-- When `add_alarm_in_us` does not return a positive handle, it returned `-1` and the pool
is as before. -/
theorem add_alarm_in_us_refused (pool : List alarm) (pick : Int) (t delay slot : Nat)
    (h : ¬ 0 < (add_alarm_in_us pool pick t delay slot).2) :
    (add_alarm_in_us pool pick t delay slot).2 = -1 ∧
      (add_alarm_in_us pool pick t delay slot).1 = pool := by
  unfold add_alarm_in_us at h ⊢
  split_ifs at h ⊢ with h1
  · exact absurd h1.1 h
  · exact ⟨rfl, rfl⟩

/-- The alarm callback never asks to be scheduled again: it returns `0`. -/
theorem debounce_returns_zero (id : Int) (i : Nat) (gpio : Bool) (s : Sys) :
    (debounce id i gpio s).2.2 = 0 := by
  unfold debounce
  simp only
  split_ifs <;> rfl


/-- Iteration `i` when the sampled state equals the stored one: only the acknowledge. -/
theorem irq_slot_same (cfg : Config) (i : Nat) (inp : irq_input) (s : Sys)
    (hconf : (s.state i).configured = true) (hev : inp.events &&& event_mask ≠ 0)
    (hsw : (s.state i).sw = !inp.gpio) :
    irq_slot cfg i inp s = (s, [Call.gpio_acknowledge_irq (s.state i).sw_pin event_mask]) := by
  unfold irq_slot
  simp [hconf, hev, hsw]

/-- Iteration `i` when the sampled state differs and enough time has passed. -/
theorem irq_slot_accept (cfg : Config) (i : Nat) (inp : irq_input) (s : Sys)
    (hconf : (s.state i).configured = true) (hev : inp.events &&& event_mask ≠ 0)
    (hsw : (s.state i).sw ≠ !inp.gpio)
    (hel : cfg.SWITCH_DEBOUNCE_US ≤ u32_sub (time_us_32 inp.t) (s.state i).sw_mtime) :
    irq_slot cfg i inp s =
      ({ state := Function.update s.state i
            { s.state i with
              sw_alarm := if 0 ≤ (s.state i).sw_alarm then -1 else (s.state i).sw_alarm
              sw_mtime := time_us_32 inp.t
              sw := !inp.gpio }
         queue := (queue_try_add s.queue { num := i % 256, sw := !inp.gpio }).1
         alarms := if 0 ≤ (s.state i).sw_alarm then cancel_alarm s.alarms (s.state i).sw_alarm
            else s.alarms },
        Call.gpio_acknowledge_irq (s.state i).sw_pin event_mask ::
          ((if 0 ≤ (s.state i).sw_alarm then [Call.cancel_alarm (s.state i).sw_alarm] else []) ++
            [Call.queue_try_add { num := i % 256, sw := !inp.gpio }
              (queue_try_add s.queue { num := i % 256, sw := !inp.gpio }).2])) := by
  have hel2 : ¬ u32_sub (time_us_32 inp.t) (s.state i).sw_mtime < cfg.SWITCH_DEBOUNCE_US := by
    omega
  unfold irq_slot irq_change
  by_cases h0 : 0 ≤ (s.state i).sw_alarm <;> simp [hconf, hev, hsw, hel2, h0, set_state]

/-- Iteration `i` when the sampled state differs too soon after the last change. -/
theorem irq_slot_defer (cfg : Config) (i : Nat) (inp : irq_input) (s : Sys)
    (hconf : (s.state i).configured = true) (hev : inp.events &&& event_mask ≠ 0)
    (hsw : (s.state i).sw ≠ !inp.gpio)
    (hel : u32_sub (time_us_32 inp.t) (s.state i).sw_mtime < cfg.SWITCH_DEBOUNCE_US) :
    irq_slot cfg i inp s =
      ({ state := Function.update s.state i
            { s.state i with
              sw_alarm := (add_alarm_in_us
                (if 0 ≤ (s.state i).sw_alarm then cancel_alarm s.alarms (s.state i).sw_alarm
                  else s.alarms) inp.pick inp.t cfg.SWITCH_DEBOUNCE_US i).2 }
         queue := s.queue
         alarms := (add_alarm_in_us
                (if 0 ≤ (s.state i).sw_alarm then cancel_alarm s.alarms (s.state i).sw_alarm
                  else s.alarms) inp.pick inp.t cfg.SWITCH_DEBOUNCE_US i).1 },
        Call.gpio_acknowledge_irq (s.state i).sw_pin event_mask ::
          ((if 0 ≤ (s.state i).sw_alarm then [Call.cancel_alarm (s.state i).sw_alarm] else []) ++
            [Call.add_alarm_in_us cfg.SWITCH_DEBOUNCE_US i true
              (add_alarm_in_us
                (if 0 ≤ (s.state i).sw_alarm then cancel_alarm s.alarms (s.state i).sw_alarm
                  else s.alarms) inp.pick inp.t cfg.SWITCH_DEBOUNCE_US i).2])) := by
  unfold irq_slot irq_change
  by_cases h0 : 0 ≤ (s.state i).sw_alarm <;> simp [hconf, hev, hsw, hel, h0, set_state]

/-- Iteration `i` on an unconfigured entry does nothing. -/
theorem irq_slot_unconfigured (cfg : Config) (i : Nat) (inp : irq_input) (s : Sys)
    (hconf : (s.state i).configured = false) : irq_slot cfg i inp s = (s, []) := by
  unfold irq_slot
  simp [hconf]

/-- Iteration `i` without a pending edge event does nothing. -/
theorem irq_slot_no_event (cfg : Config) (i : Nat) (inp : irq_input) (s : Sys)
    (hev : inp.events &&& event_mask = 0) : irq_slot cfg i inp s = (s, []) := by
  unfold irq_slot
  simp [hev]

/-- The callback rewrites entry `i` and the queue, nothing else. -/
theorem debounce_shape (id : Int) (i : Nat) (gpio : Bool) (s : Sys) :
    ∃ (st : state) (q : queue_t), st.sw_alarm = -1 ∧
      (debounce id i gpio s).1 =
        { state := Function.update s.state i st, queue := q, alarms := s.alarms } := by
  unfold debounce
  simp only
  split_ifs
  · exact ⟨_, s.queue, rfl, rfl⟩
  · exact ⟨_, _, rfl, rfl⟩

/-! ## The alarm pool agrees with the table -/

theorem pool_ok_boot (cfg : Config) : pool_ok cfg (switch_init cfg boot).1 := by
  constructor
  · intro a ha
    simp [switch_init, boot] at ha
  · simp [switch_init, boot]

/-- Rewriting entry `i` keeps the agreement when the pool shrinks to alarms of other
entries. -/
theorem pool_ok_shrink (cfg : Config) (s : Sys) (i : Nat) (st : state) (q : queue_t)
    (pool : List alarm) (h : pool_ok cfg s) (hsub : pool.Sublist s.alarms)
    (hne : ∀ a ∈ pool, a.slot ≠ i) :
    pool_ok cfg { state := Function.update s.state i st, queue := q, alarms := pool } := by
  constructor
  · intro a ha
    obtain ⟨h1, h2, h3⟩ := h.1 a (hsub.subset ha)
    refine ⟨h1, h2, ?_⟩
    simp only [Function.update_noteq (hne a ha)]
    exact h3
  · exact h.2.sublist hsub

/-- Rewriting entry `i` keeps the agreement when the pool shrinks to alarms of other
entries and then gains one alarm for entry `i` under the handle stored there. -/
theorem pool_ok_grow (cfg : Config) (s : Sys) (i : Nat) (st : state) (q : queue_t)
    (pool : List alarm) (due : Nat) (h : pool_ok cfg s) (hi : i < cfg.NUM_SWITCHES)
    (hsub : pool.Sublist s.alarms) (hne : ∀ a ∈ pool, a.slot ≠ i) (hpos : 0 < st.sw_alarm) :
    pool_ok cfg
      { state := Function.update s.state i st, queue := q,
        alarms := pool ++ [{ id := st.sw_alarm, slot := i, due := due }] } := by
  constructor
  · intro a ha
    rcases List.mem_append.mp ha with ha | ha
    · obtain ⟨h1, h2, h3⟩ := h.1 a (hsub.subset ha)
      refine ⟨h1, h2, ?_⟩
      simp only [Function.update_noteq (hne a ha)]
      exact h3
    · have e : a = { id := st.sw_alarm, slot := i, due := due } := by simpa using ha
      subst e
      exact ⟨hpos, hi, by simp⟩
  · refine List.pairwise_append.mpr ⟨h.2.sublist hsub, List.pairwise_singleton _ _, ?_⟩
    intro a ha b hb
    have e : b = { id := st.sw_alarm, slot := i, due := due } := by simpa using hb
    subst e
    exact hne a ha

/-- The pool the handler goes on with after its cancel step holds no alarm of entry `i`. -/
theorem pool_after_cancel (cfg : Config) (s : Sys) (i : Nat) (h : pool_ok cfg s) :
    (if 0 ≤ (s.state i).sw_alarm then cancel_alarm s.alarms (s.state i).sw_alarm
        else s.alarms).Sublist s.alarms ∧
      ∀ a ∈ (if 0 ≤ (s.state i).sw_alarm then cancel_alarm s.alarms (s.state i).sw_alarm
        else s.alarms), a.slot ≠ i := by
  constructor
  · split_ifs
    · exact List.filter_sublist _
    · exact List.Sublist.refl _
  · intro a ha hslot
    split_ifs at ha with h0
    · obtain ⟨hmem, hid⟩ := List.mem_filter.mp ha
      have h3 := (h.1 a hmem).2.2
      rw [hslot] at h3
      simp [h3] at hid
    · obtain ⟨h1, _, h3⟩ := h.1 a ha
      rw [hslot] at h3
      omega

theorem pool_ok_irq_slot (cfg : Config) (i : Nat) (inp : irq_input) (s : Sys)
    (hi : i < cfg.NUM_SWITCHES) (h : pool_ok cfg s) : pool_ok cfg (irq_slot cfg i inp s).1 := by
  by_cases hconf : (s.state i).configured = true
  · by_cases hev : inp.events &&& event_mask = 0
    · rw [irq_slot_no_event cfg i inp s hev]; exact h
    · by_cases hsw : (s.state i).sw = !inp.gpio
      · rw [irq_slot_same cfg i inp s hconf hev hsw]; exact h
      · obtain ⟨hsub, hne⟩ := pool_after_cancel cfg s i h
        by_cases hel : u32_sub (time_us_32 inp.t) (s.state i).sw_mtime < cfg.SWITCH_DEBOUNCE_US
        · rw [irq_slot_defer cfg i inp s hconf hev hsw hel]
          by_cases hret : 0 < (add_alarm_in_us
              (if 0 ≤ (s.state i).sw_alarm then cancel_alarm s.alarms (s.state i).sw_alarm
                else s.alarms) inp.pick inp.t cfg.SWITCH_DEBOUNCE_US i).2
          · simp only
            rw [add_alarm_in_us_scheduled _ _ _ _ _ hret]
            exact pool_ok_grow cfg s i _ s.queue _ _ h hi hsub hne hret
          · simp only
            rw [(add_alarm_in_us_refused _ _ _ _ _ hret).2]
            exact pool_ok_shrink cfg s i _ s.queue _ h hsub hne
        · rw [irq_slot_accept cfg i inp s hconf hev hsw (by omega)]
          exact pool_ok_shrink cfg s i _ _ _ h hsub hne
  · rw [irq_slot_unconfigured cfg i inp s (by simpa using hconf)]; exact h

theorem pool_ok_irq_loop (cfg : Config) (inp : Nat → irq_input) (n : Nat) :
    ∀ (lo : Nat) (s : Sys), lo + n ≤ cfg.NUM_SWITCHES → pool_ok cfg s →
      pool_ok cfg (irq_loop cfg inp lo n s).1 := by
  induction n with
  | zero => intro lo s _ h; exact h
  | succ n ih =>
    intro lo s hlo h
    simp only [irq_loop]
    exact ih (lo + 1) _ (by omega) (pool_ok_irq_slot cfg lo (inp lo) s (by omega) h)

theorem pool_ok_irq_handler_sw (cfg : Config) (inp : Nat → irq_input) (s : Sys)
    (h : pool_ok cfg s) : pool_ok cfg (irq_handler_sw cfg inp s).1 :=
  pool_ok_irq_loop cfg inp cfg.NUM_SWITCHES 0 s (by omega) h

/-- A `switch_config` that returns has marked the entry configured and stored the pin. -/
theorem switch_config_ok (cfg : Config) (num sw_pin : Nat) (s : Sys) (r : Sys × List Call)
    (hr : switch_config cfg num sw_pin s = Except.ok r) :
    r.1 = set_state s num { s.state num with configured := true, sw_pin := sw_pin % 256 } ∧
      (s.state num).configured = false := by
  unfold switch_config at hr
  by_cases h2 : (s.state num).configured = true
  · simp [h2] at hr
  · have h3 : (s.state num).configured = false := by simpa using h2
    simp only [h3, if_false, Bool.false_eq_true, Except.ok.injEq] at hr
    subst hr
    exact ⟨rfl, h3⟩

theorem pool_ok_switch_config (cfg : Config) (num sw_pin : Nat) (s : Sys)
    (r : Sys × List Call) (h : pool_ok cfg s) (hr : switch_config cfg num sw_pin s = Except.ok r) :
    pool_ok cfg r.1 := by
  rw [(switch_config_ok cfg num sw_pin s r hr).1]
  constructor
  · intro a ha
    obtain ⟨h1, h2, h3⟩ := h.1 a ha
    refine ⟨h1, h2, ?_⟩
    by_cases e : a.slot = num
    · simp [set_state, e, ← h3]
    · simp [set_state, Function.update_noteq e, h3]
  · exact h.2

theorem pool_ok_fire_alarm (cfg : Config) (id : Int) (gpio : Bool) (s : Sys)
    (r : Sys × List Call) (h : pool_ok cfg s) (hr : fire_alarm id gpio s = some r) :
    pool_ok cfg r.1 := by
  unfold fire_alarm at hr
  split at hr
  · exact absurd hr (by simp)
  · rename_i a hfind
    have hmem : a ∈ s.alarms := List.mem_of_find?_eq_some hfind
    have hzero := debounce_returns_zero a.id a.slot gpio
      { s with alarms := cancel_alarm s.alarms a.id }
    simp only [hzero, if_true, Option.some.injEq] at hr
    subst hr
    obtain ⟨st, q, _, hshape⟩ := debounce_shape a.id a.slot gpio
      { s with alarms := cancel_alarm s.alarms a.id }
    simp only
    rw [hshape]
    refine pool_ok_shrink cfg s a.slot st q _ h (List.filter_sublist _) ?_
    intro b hb hslot
    obtain ⟨hbmem, hbid⟩ := List.mem_filter.mp hb
    have h3a := (h.1 a hmem).2.2
    have h3b := (h.1 b hbmem).2.2
    rw [hslot, h3a] at h3b
    simp [h3b] at hbid

theorem pool_ok_step (cfg : Config) (a : Action) (s : Sys) (r : Sys × List Call)
    (h : pool_ok cfg s) (hr : step cfg a s = some r) : pool_ok cfg r.1 := by
  cases a with
  | config num sw_pin =>
    simp only [step] at hr
    split at hr
    · rename_i r0 h0
      simp only [Option.some.injEq] at hr
      subst hr
      exact pool_ok_switch_config cfg num sw_pin s r0 h h0
    · exact absurd hr (by simp)
  | irq inp =>
    simp only [step, Option.some.injEq] at hr
    subst hr
    exact pool_ok_irq_handler_sw cfg inp s h
  | fire id gpio =>
    exact pool_ok_fire_alarm cfg id gpio s r h hr
  | read =>
    simp only [step, switch_read_blocking] at hr
    split at hr
    · simp only [Option.some.injEq] at hr
      subst hr
      exact h
    · rename_i ev s1 h1
      simp only [Option.some.injEq] at hr
      subst hr
      split at h1
      · exact absurd h1 (by simp)
      · simp only [Option.some.injEq, Prod.mk.injEq] at h1
        obtain ⟨_, h1⟩ := h1
        subst h1
        exact h

theorem pool_ok_run (cfg : Config) (acts : List Action) :
    ∀ (s : Sys) (r : Sys × List Call), pool_ok cfg s → run cfg acts s = some r →
      pool_ok cfg r.1 := by
  induction acts with
  | nil =>
    intro s r h hr
    simp only [run, Option.some.injEq] at hr
    subst hr
    exact h
  | cons a rest ih =>
    intro s r h hr
    simp only [run] at hr
    split at hr
    · exact absurd hr (by simp)
    · rename_i r1 h1
      split at hr
      · exact absurd hr (by simp)
      · rename_i r2 h2
        simp only [Option.some.injEq] at hr
        subst hr
        exact ih r1.1 r2 (pool_ok_step cfg a s r1 h h1) h2

/-- Every reachable state has the alarm pool in agreement with the table. -/
theorem pool_ok_reachable (cfg : Config) (s : Sys) (h : Reachable cfg s) : pool_ok cfg s := by
  obtain ⟨acts, log, hrun⟩ := h
  exact pool_ok_run cfg acts _ (s, log) (pool_ok_boot cfg) hrun

/-- Among alarms of pairwise different entries at most one belongs to entry `j`. -/
theorem at_most_one_of_pairwise (j : Nat) (l : List alarm)
    (h : l.Pairwise (fun a b => a.slot ≠ b.slot)) :
    (l.filter (fun a => decide (a.slot = j))).length ≤ 1 := by
  induction l with
  | nil => simp
  | cons a l ih =>
    obtain ⟨ha, hl⟩ := List.pairwise_cons.mp h
    by_cases e : a.slot = j
    · have hnil : l.filter (fun a => decide (a.slot = j)) = [] := by
        rw [List.filter_eq_nil_iff]
        intro b hb
        have := ha b hb
        simp only [decide_eq_true_eq]
        omega
      simp [List.filter_cons, e, hnil]
    · simpa [List.filter_cons, e] using ih hl

/-! ## The queue along an execution -/

theorem changes_from_congr (b1 a1 b2 a2 : Sys) (lo n : Nat)
    (h : ∀ j, lo ≤ j → j < lo + n → b1.state j = b2.state j ∧ a1.state j = a2.state j) :
    changes_from b1 a1 lo n = changes_from b2 a2 lo n := by
  unfold changes_from
  apply List.filterMap_congr
  intro j hj
  obtain ⟨h1, h2⟩ := List.mem_range'_1.mp hj
  obtain ⟨e1, e2⟩ := h j h1 h2
  rw [e1, e2]

theorem changes_from_succ (before after : Sys) (lo n : Nat) :
    changes_from before after lo (n + 1) =
      changes_from before after lo 1 ++ changes_from before after (lo + 1) n := by
  unfold changes_from
  rw [List.range'_succ, List.filterMap_cons]
  simp only [List.range'_one, List.filterMap_cons, List.filterMap_nil]
  split <;> simp

theorem changes_from_nil (before after : Sys) (lo n : Nat)
    (h : ∀ j, lo ≤ j → j < lo + n → before.state j = after.state j) :
    changes_from before after lo n = [] := by
  unfold changes_from
  rw [List.filterMap_eq_nil_iff]
  intro j hj
  obtain ⟨h1, h2⟩ := List.mem_range'_1.mp hj
  simp [h j h1 h2]

/-- When only entry `k` differs, the changes over a range that holds `k` are those of `k`. -/
theorem changes_from_single (before after : Sys) (k : Nat)
    (h : ∀ j, j ≠ k → before.state j = after.state j) (n : Nat) :
    ∀ lo, lo ≤ k → k < lo + n →
      changes_from before after lo n = changes_from before after k 1 := by
  induction n with
  | zero => intro lo h1 h2; omega
  | succ n ih =>
    intro lo h1 h2
    rw [changes_from_succ]
    by_cases e : lo = k
    · subst e
      rw [changes_from_nil before after (lo + 1) n (fun j hj _ => h j (by omega))]
      simp
    · rw [changes_from_nil before after lo 1 (fun j _ hj => h j (by omega))]
      simpa using ih (lo + 1) (by omega) (by omega)

/-- The changes of the single entry `k`. -/
theorem changes_from_one (before after : Sys) (k : Nat) :
    changes_from before after k 1 =
      if (before.state k).sw = (after.state k).sw then []
      else [{ num := k, sw := (after.state k).sw }] := by
  unfold changes_from
  simp only [List.range'_one, List.filterMap_cons, List.filterMap_nil]
  split_ifs <;> simp_all

/-- One iteration of the handler never shrinks the queue and keeps its capacity. -/
theorem irq_slot_queue_mono (cfg : Config) (i : Nat) (inp : irq_input) (s : Sys) :
    s.queue.elems.length ≤ (irq_slot cfg i inp s).1.queue.elems.length ∧
      (irq_slot cfg i inp s).1.queue.element_count = s.queue.element_count := by
  by_cases hconf : (s.state i).configured = true
  · by_cases hev : inp.events &&& event_mask = 0
    · rw [irq_slot_no_event cfg i inp s hev]; exact ⟨le_refl _, rfl⟩
    · by_cases hsw : (s.state i).sw = !inp.gpio
      · rw [irq_slot_same cfg i inp s hconf hev hsw]; exact ⟨le_refl _, rfl⟩
      · by_cases hel : u32_sub (time_us_32 inp.t) (s.state i).sw_mtime < cfg.SWITCH_DEBOUNCE_US
        · rw [irq_slot_defer cfg i inp s hconf hev hsw hel]; exact ⟨le_refl _, rfl⟩
        · rw [irq_slot_accept cfg i inp s hconf hev hsw (by omega)]
          simp only [queue_try_add]
          split_ifs <;> simp
  · rw [irq_slot_unconfigured cfg i inp s (by simpa using hconf)]; exact ⟨le_refl _, rfl⟩

/-- One iteration of the handler that leaves room in the queue has appended exactly the
change it accepted. -/
theorem irq_slot_queue (cfg : Config) (i : Nat) (inp : irq_input) (s : Sys) (hi : i < 256)
    (hroom : (irq_slot cfg i inp s).1.queue.elems.length <
      (irq_slot cfg i inp s).1.queue.element_count) :
    (irq_slot cfg i inp s).1.queue.elems =
      s.queue.elems ++ changes_from s (irq_slot cfg i inp s).1 i 1 := by
  have hmod : i % 256 = i := Nat.mod_eq_of_lt hi
  rw [changes_from_one]
  by_cases hconf : (s.state i).configured = true
  · by_cases hev : inp.events &&& event_mask = 0
    · rw [irq_slot_no_event cfg i inp s hev]; simp
    · by_cases hsw : (s.state i).sw = !inp.gpio
      · rw [irq_slot_same cfg i inp s hconf hev hsw]; simp
      · by_cases hel : u32_sub (time_us_32 inp.t) (s.state i).sw_mtime < cfg.SWITCH_DEBOUNCE_US
        · rw [irq_slot_defer cfg i inp s hconf hev hsw hel]; simp
        · rw [irq_slot_accept cfg i inp s hconf hev hsw (by omega)] at hroom ⊢
          by_cases h1 : s.queue.elems.length < s.queue.element_count
          · simp [queue_try_add, h1, hmod, hsw]
          · simp only [queue_try_add, h1, if_false] at hroom
  · rw [irq_slot_unconfigured cfg i inp s (by simpa using hconf)]; simp

theorem irq_loop_queue_mono (cfg : Config) (inp : Nat → irq_input) (n : Nat) :
    ∀ (lo : Nat) (s : Sys),
      s.queue.elems.length ≤ (irq_loop cfg inp lo n s).1.queue.elems.length ∧
        (irq_loop cfg inp lo n s).1.queue.element_count = s.queue.element_count := by
  induction n with
  | zero => intro lo s; exact ⟨le_refl _, rfl⟩
  | succ n ih =>
    intro lo s
    simp only [irq_loop]
    obtain ⟨h1, h2⟩ := irq_slot_queue_mono cfg lo (inp lo) s
    obtain ⟨h3, h4⟩ := ih (lo + 1) (irq_slot cfg lo (inp lo) s).1
    exact ⟨le_trans h1 h3, by rw [h4, h2]⟩

/-- A stretch of the loop that leaves room in the queue has appended exactly the changes it
accepted, in index order. -/
theorem irq_loop_queue (cfg : Config) (inp : Nat → irq_input) (n : Nat) :
    ∀ (lo : Nat) (s : Sys), lo + n ≤ 256 →
      (irq_loop cfg inp lo n s).1.queue.elems.length <
        (irq_loop cfg inp lo n s).1.queue.element_count →
      (irq_loop cfg inp lo n s).1.queue.elems =
        s.queue.elems ++ changes_from s (irq_loop cfg inp lo n s).1 lo n := by
  induction n with
  | zero => intro lo s _ _; simp [irq_loop, changes_from]
  | succ n ih =>
    intro lo s hlo hroom
    have hmono := irq_loop_queue_mono cfg inp n (lo + 1) (irq_slot cfg lo (inp lo) s).1
    simp only [irq_loop] at hroom ⊢
    have h1 := irq_slot_queue cfg lo (inp lo) s (by omega) (by omega)
    rw [ih (lo + 1) _ (by omega) hroom, h1,
      changes_from_succ s (irq_loop cfg inp (lo + 1) n (irq_slot cfg lo (inp lo) s).1).1 lo n,
      List.append_assoc]
    congr 2
    · apply changes_from_congr
      intro j hj1 hj2
      refine ⟨rfl, ?_⟩
      exact (irq_loop_state_outside cfg inp n (lo + 1) _ j (Or.inl (by omega))).symm
    · apply changes_from_congr
      intro j hj1 hj2
      exact ⟨irq_slot_state_other cfg lo j (inp lo) s (by omega), rfl⟩

/-- The callback never shrinks the queue and keeps its capacity. -/
theorem debounce_queue_mono (id : Int) (i : Nat) (gpio : Bool) (s : Sys) :
    s.queue.elems.length ≤ (debounce id i gpio s).1.queue.elems.length ∧
      (debounce id i gpio s).1.queue.element_count = s.queue.element_count := by
  unfold debounce
  simp only [queue_try_add]
  split_ifs <;> simp [set_state]

/-- A callback that leaves room in the queue has appended exactly the change it accepted. -/
theorem debounce_queue (id : Int) (i : Nat) (gpio : Bool) (s : Sys) (hi : i < 256)
    (hroom : (debounce id i gpio s).1.queue.elems.length <
      (debounce id i gpio s).1.queue.element_count) :
    (debounce id i gpio s).1.queue.elems =
      s.queue.elems ++ changes_from s (debounce id i gpio s).1 i 1 := by
  have hmod : i % 256 = i := Nat.mod_eq_of_lt hi
  rw [changes_from_one]
  unfold debounce at hroom ⊢
  by_cases hsw : (s.state i).sw = !gpio
  · simp [hsw, set_state]
  · by_cases h1 : s.queue.elems.length < s.queue.element_count
    · simp [queue_try_add, h1, hmod, hsw, set_state]
    · simp only [queue_try_add, h1, hsw, if_false] at hroom

/-- Successive reads hand out the queue from its head. -/
theorem read_n_eq_take (k : Nat) : ∀ s : Sys, read_n k s = s.queue.elems.take k := by
  induction k with
  | zero => intro s; simp [read_n]
  | succ k ih =>
    intro s
    cases hq : s.queue.elems with
    | nil => simp [read_n, switch_read_blocking, queue_remove_blocking, hq]
    | cons ev rest =>
      simp [read_n, switch_read_blocking, queue_remove_blocking, hq, ih]

/-- Two indices in increasing order form a sublist of a range that holds them. -/
theorem pair_sublist_range (n : Nat) :
    ∀ lo i j, lo ≤ i → i < j → j < lo + n → List.Sublist [i, j] (List.range' lo n) := by
  induction n with
  | zero => intro lo i j _ _ h; omega
  | succ n ih =>
    intro lo i j h1 h2 h3
    rw [List.range'_succ]
    by_cases e : i = lo
    · subst e
      exact List.Sublist.cons₂ _
        (List.singleton_sublist.mpr (List.mem_range'_1.mpr ⟨by omega, by omega⟩))
    · exact List.Sublist.cons _ (ih (lo + 1) i j (by omega) h2 (by omega))

/-- A firing alarm is an outstanding one; what is left is the state after its callback. -/
theorem fire_alarm_some (id : Int) (gpio : Bool) (s : Sys) (r : Sys × List Call)
    (hr : fire_alarm id gpio s = some r) :
    ∃ a ∈ s.alarms,
      r.1 = (debounce a.id a.slot gpio { s with alarms := cancel_alarm s.alarms a.id }).1 := by
  unfold fire_alarm at hr
  split at hr
  · exact absurd hr (by simp)
  · rename_i a hfind
    have hzero := debounce_returns_zero a.id a.slot gpio
      { s with alarms := cancel_alarm s.alarms a.id }
    simp only [hzero, if_true, Option.some.injEq] at hr
    subst hr
    exact ⟨a, List.mem_of_find?_eq_some hfind, rfl⟩

/-- One action of the producer side never shrinks the queue, keeps its capacity, and, when
it leaves room in the queue, has appended exactly the changes it accepted. -/
theorem producer_step_queue (cfg : Config) (a : Action) (s : Sys) (r : Sys × List Call)
    (h256 : cfg.NUM_SWITCHES ≤ 256) (hprod : is_producer a = true) (hpool : pool_ok cfg s)
    (hr : step cfg a s = some r) :
    (s.queue.elems.length ≤ r.1.queue.elems.length ∧
        r.1.queue.element_count = s.queue.element_count) ∧
      (r.1.queue.elems.length < r.1.queue.element_count →
        r.1.queue.elems = s.queue.elems ++ changes cfg s r.1) := by
  cases a with
  | config num sw_pin => simp [is_producer] at hprod
  | read => simp [is_producer] at hprod
  | irq inp =>
    simp only [step, Option.some.injEq] at hr
    subst hr
    exact ⟨irq_loop_queue_mono cfg inp cfg.NUM_SWITCHES 0 s,
      fun hroom => irq_loop_queue cfg inp cfg.NUM_SWITCHES 0 s (by omega) hroom⟩
  | fire id gpio =>
    obtain ⟨a, hmem, hr1⟩ := fire_alarm_some id gpio s r hr
    have hslot : a.slot < cfg.NUM_SWITCHES := (hpool.1 a hmem).2.1
    rw [hr1]
    refine ⟨debounce_queue_mono a.id a.slot gpio
      { s with alarms := cancel_alarm s.alarms a.id }, fun hroom => ?_⟩
    rw [debounce_queue a.id a.slot gpio { s with alarms := cancel_alarm s.alarms a.id }
      (by omega) hroom]
    show s.queue.elems ++ _ = s.queue.elems ++ _
    congr 1
    unfold changes
    rw [changes_from_single s _ a.slot ?_ cfg.NUM_SWITCHES 0 (by omega) (by omega)]
    · exact changes_from_congr _ _ _ _ _ _ (fun j _ _ => ⟨rfl, rfl⟩)
    · intro j hj
      obtain ⟨st, q, _, hshape⟩ := debounce_shape a.id a.slot gpio
        { s with alarms := cancel_alarm s.alarms a.id }
      rw [hshape]
      simp [Function.update_noteq hj]

/-- A sequence of producer actions never shrinks the queue, keeps its capacity, and, when
it leaves room in the queue, has appended exactly the accepted changes, in order. -/
theorem producer_run_queue (cfg : Config) (h256 : cfg.NUM_SWITCHES ≤ 256) (acts : List Action) :
    ∀ (s : Sys) (r : Sys × List Call), (∀ a ∈ acts, is_producer a = true) → pool_ok cfg s →
      run cfg acts s = some r →
      (s.queue.elems.length ≤ r.1.queue.elems.length ∧
          r.1.queue.element_count = s.queue.element_count) ∧
        (r.1.queue.elems.length < r.1.queue.element_count →
          r.1.queue.elems = s.queue.elems ++ accepted cfg acts s) := by
  induction acts with
  | nil =>
    intro s r _ _ hr
    simp only [run, Option.some.injEq] at hr
    subst hr
    simp [accepted]
  | cons a rest ih =>
    intro s r hprod hpool hr
    simp only [run] at hr
    split at hr
    · exact absurd hr (by simp)
    · rename_i r1 h1
      split at hr
      · exact absurd hr (by simp)
      · rename_i r2 h2
        simp only [Option.some.injEq] at hr
        subst hr
        obtain ⟨⟨m1, c1⟩, q1⟩ := producer_step_queue cfg a s r1 h256
          (hprod a (List.mem_cons_self a rest)) hpool h1
        obtain ⟨⟨m2, c2⟩, q2⟩ := ih r1.1 r2
          (fun b hb => hprod b (List.mem_cons_of_mem a hb)) (pool_ok_step cfg a s r1 hpool h1) h2
        refine ⟨⟨le_trans m1 m2, by rw [c2, c1]⟩, fun hroom => ?_⟩
        simp only at hroom ⊢
        rw [q2 hroom, q1 (by omega)]
        simp [accepted, h1]

/-! ## The edge handler -/

/-- C1, immediate accept. Let switch `i` be configured, let iteration `i` of the handler
find an edge event pending, sample a state different from the stored one, and find at least
`SWITCH_DEBOUNCE_US` elapsed since `sw_mtime`. Then after `irq_handler_sw` the entry holds
the sampled state, `sw_mtime` is the time read, the handle is negative (it is `-1` whenever
it was at least `-1` before), and pin and configured flag are untouched. Iteration `i`
itself makes exactly the calls acknowledge, `cancel_alarm` of a stored handle if there was
one, and one `queue_try_add` of `(i, sampled state)`: it schedules no alarm, leaves no alarm
in the pool that was not there before, and appends exactly this one event when the queue
is not full. -/
theorem irq_immediate_accept (cfg : Config) (inp : Nat → irq_input) (s : Sys) (i : Nat)
    (hi : i < cfg.NUM_SWITCHES) (h256 : cfg.NUM_SWITCHES ≤ 256)
    (hconf : (s.state i).configured = true)
    (hev : (inp i).events &&& event_mask ≠ 0)
    (hsw : (s.state i).sw ≠ !(inp i).gpio)
    (hel : cfg.SWITCH_DEBOUNCE_US ≤ u32_sub (time_us_32 (inp i).t) (s.state i).sw_mtime) :
    (irq_handler_sw cfg inp s).1.state i =
        { s.state i with
          sw := !(inp i).gpio
          sw_mtime := time_us_32 (inp i).t
          sw_alarm := if 0 ≤ (s.state i).sw_alarm then -1 else (s.state i).sw_alarm } ∧
      ((irq_handler_sw cfg inp s).1.state i).sw_alarm < 0 ∧
      (-1 ≤ (s.state i).sw_alarm → ((irq_handler_sw cfg inp s).1.state i).sw_alarm = -1) ∧
      (irq_slot cfg i (inp i) (irq_loop cfg inp 0 i s).1).2 =
        Call.gpio_acknowledge_irq (s.state i).sw_pin event_mask ::
          ((if 0 ≤ (s.state i).sw_alarm then [Call.cancel_alarm (s.state i).sw_alarm] else []) ++
            [Call.queue_try_add { num := i, sw := !(inp i).gpio }
              (decide ((irq_loop cfg inp 0 i s).1.queue.elems.length <
                (irq_loop cfg inp 0 i s).1.queue.element_count))]) ∧
      (irq_slot cfg i (inp i) (irq_loop cfg inp 0 i s).1).1.queue =
        (if (irq_loop cfg inp 0 i s).1.queue.elems.length <
            (irq_loop cfg inp 0 i s).1.queue.element_count then
          { (irq_loop cfg inp 0 i s).1.queue with
            elems := (irq_loop cfg inp 0 i s).1.queue.elems ++
              [{ num := i, sw := !(inp i).gpio }] }
        else (irq_loop cfg inp 0 i s).1.queue) ∧
      (∀ a ∈ (irq_slot cfg i (inp i) (irq_loop cfg inp 0 i s).1).1.alarms,
        a ∈ (irq_loop cfg inp 0 i s).1.alarms) := by
  obtain ⟨hfin, hpre⟩ := irq_handler_sw_state cfg inp s i hi
  have hmod : i % 256 = i := Nat.mod_eq_of_lt (by omega)
  have hbody := irq_slot_accept cfg i (inp i) (irq_loop cfg inp 0 i s).1
    (by rw [hpre]; exact hconf) hev (by rw [hpre]; exact hsw) (by rw [hpre]; exact hel)
  rw [hpre, hmod] at hbody
  have hst : (irq_handler_sw cfg inp s).1.state i =
      { s.state i with
        sw := !(inp i).gpio
        sw_mtime := time_us_32 (inp i).t
        sw_alarm := if 0 ≤ (s.state i).sw_alarm then -1 else (s.state i).sw_alarm } := by
    rw [hfin, hbody]; simp
  refine ⟨hst, ?_, ?_, ?_, ?_, ?_⟩
  · rw [hst]; simp only; split_ifs <;> omega
  · intro h1; rw [hst]; simp only; split_ifs <;> omega
  · rw [hbody]; simp only [queue_try_add]; split_ifs <;> simp_all
  · rw [hbody]; simp only [queue_try_add]; split_ifs <;> rfl
  · rw [hbody]; simp only
    intro a ha
    split_ifs at ha
    · exact (List.mem_filter.mp ha).1
    · exact ha

/-- The immediate accept at work: switch 1 of the sample state, pressed at 5000 us. -/
theorem irq_immediate_accept_witness :
    ((irq_handler_sw defaultConfig sample_input sample_sys).1.state 1).sw_alarm < 0 ∧
      ((irq_handler_sw defaultConfig sample_input sample_sys).1.state 1).sw = true :=
  have h := irq_immediate_accept defaultConfig sample_input sample_sys 1
    (by decide) (by decide) (by decide) (by decide) (by decide) (by decide)
  ⟨h.2.1, by rw [h.1]; rfl⟩

/-- C2, deferred accept. Let switch `i` be configured, let iteration `i` of the handler find
an edge event pending, sample a state different from the stored one, and find less than
`SWITCH_DEBOUNCE_US` elapsed since `sw_mtime`. Then after `irq_handler_sw` the entry is as
before except for the handle, which is the value returned by `add_alarm_in_us`. Iteration
`i` makes exactly the calls acknowledge, `cancel_alarm` of a stored handle if there was one,
and one `add_alarm_in_us(SWITCH_DEBOUNCE_US, debounce, &state[i], true)`: no event is
offered to the queue and the queue is unchanged. When the pool hands out a handle, the pool
gains exactly one alarm, for entry `i`, due `SWITCH_DEBOUNCE_US` after the time read;
otherwise the returned value is `-1` and the pool gains nothing. The callback is one-shot:
`debounce` always returns `0`. -/
theorem irq_deferred_accept (cfg : Config) (inp : Nat → irq_input) (s : Sys) (i : Nat)
    (hi : i < cfg.NUM_SWITCHES)
    (hconf : (s.state i).configured = true)
    (hev : (inp i).events &&& event_mask ≠ 0)
    (hsw : (s.state i).sw ≠ !(inp i).gpio)
    (hel : u32_sub (time_us_32 (inp i).t) (s.state i).sw_mtime < cfg.SWITCH_DEBOUNCE_US) :
    ∃ ret : Int,
      (irq_handler_sw cfg inp s).1.state i = { s.state i with sw_alarm := ret } ∧
      (irq_slot cfg i (inp i) (irq_loop cfg inp 0 i s).1).2 =
        Call.gpio_acknowledge_irq (s.state i).sw_pin event_mask ::
          ((if 0 ≤ (s.state i).sw_alarm then [Call.cancel_alarm (s.state i).sw_alarm] else []) ++
            [Call.add_alarm_in_us cfg.SWITCH_DEBOUNCE_US i true ret]) ∧
      (irq_slot cfg i (inp i) (irq_loop cfg inp 0 i s).1).1.queue =
        (irq_loop cfg inp 0 i s).1.queue ∧
      (0 < ret →
        (irq_slot cfg i (inp i) (irq_loop cfg inp 0 i s).1).1.alarms =
          (if 0 ≤ (s.state i).sw_alarm then
              cancel_alarm (irq_loop cfg inp 0 i s).1.alarms (s.state i).sw_alarm
            else (irq_loop cfg inp 0 i s).1.alarms) ++
            [{ id := ret, slot := i, due := (inp i).t + cfg.SWITCH_DEBOUNCE_US }]) ∧
      (¬ 0 < ret → ret = -1 ∧
        (irq_slot cfg i (inp i) (irq_loop cfg inp 0 i s).1).1.alarms =
          (if 0 ≤ (s.state i).sw_alarm then
              cancel_alarm (irq_loop cfg inp 0 i s).1.alarms (s.state i).sw_alarm
            else (irq_loop cfg inp 0 i s).1.alarms)) ∧
      (∀ (id : Int) (gpio : Bool) (s1 : Sys), (debounce id i gpio s1).2.2 = 0) := by
  obtain ⟨hfin, hpre⟩ := irq_handler_sw_state cfg inp s i hi
  have hbody := irq_slot_defer cfg i (inp i) (irq_loop cfg inp 0 i s).1
    (by rw [hpre]; exact hconf) hev (by rw [hpre]; exact hsw) (by rw [hpre]; exact hel)
  rw [hpre] at hbody
  refine ⟨(add_alarm_in_us
      (if 0 ≤ (s.state i).sw_alarm then
          cancel_alarm (irq_loop cfg inp 0 i s).1.alarms (s.state i).sw_alarm
        else (irq_loop cfg inp 0 i s).1.alarms)
      (inp i).pick (inp i).t cfg.SWITCH_DEBOUNCE_US i).2, ?_, ?_, ?_, ?_, ?_, ?_⟩
  · rw [hfin, hbody]; simp
  · rw [hbody]
  · rw [hbody]
  · intro hret
    rw [hbody]
    exact add_alarm_in_us_scheduled _ _ _ _ _ hret
  · intro hret
    rw [hbody]
    exact add_alarm_in_us_refused _ _ _ _ _ hret
  · intro id gpio s1
    exact debounce_returns_zero id i gpio s1

/-- The deferred accept at work: switch 1 of the sample state was released at 4500 us and is
pressed again at 5000 us. -/
theorem irq_deferred_accept_witness :
    ∃ ret : Int,
      (irq_handler_sw defaultConfig sample_input
          (set_state sample_sys 1 { sample_state with sw_mtime := 4500 })).1.state 1 =
        { sample_state with sw_mtime := 4500, sw_alarm := ret } :=
  have h := irq_deferred_accept defaultConfig sample_input
    (set_state sample_sys 1 { sample_state with sw_mtime := 4500 }) 1
    (by decide) (by decide) (by decide) (by decide) (by decide)
  h.imp (fun _ hr => hr.1)

/-- C3, no-op on an unchanged level. Let switch `i` be configured and let iteration `i` of
the handler find an edge event pending but sample the state that is already stored. Then
iteration `i` only acknowledges the interrupt: it offers no event, schedules and cancels no
alarm, and leaves table, queue and alarm pool exactly as they were, so running it again on
the same reads gives the same state. After the whole handler the entry `i` is unchanged,
and it is unchanged again after a second run of the handler on the same reads. -/
theorem irq_unchanged_level (cfg : Config) (inp : Nat → irq_input) (s : Sys) (i : Nat)
    (hi : i < cfg.NUM_SWITCHES)
    (hconf : (s.state i).configured = true)
    (hev : (inp i).events &&& event_mask ≠ 0)
    (hsw : (s.state i).sw = !(inp i).gpio) :
    irq_slot cfg i (inp i) (irq_loop cfg inp 0 i s).1 =
        ((irq_loop cfg inp 0 i s).1,
          [Call.gpio_acknowledge_irq (s.state i).sw_pin event_mask]) ∧
      irq_slot cfg i (inp i) (irq_slot cfg i (inp i) (irq_loop cfg inp 0 i s).1).1 =
        irq_slot cfg i (inp i) (irq_loop cfg inp 0 i s).1 ∧
      (irq_handler_sw cfg inp s).1.state i = s.state i ∧
      (irq_handler_sw cfg inp (irq_handler_sw cfg inp s).1).1.state i = s.state i := by
  have key : ∀ s0 : Sys, s0.state i = s.state i →
      irq_slot cfg i (inp i) (irq_loop cfg inp 0 i s0).1 =
          ((irq_loop cfg inp 0 i s0).1,
            [Call.gpio_acknowledge_irq (s.state i).sw_pin event_mask]) ∧
        (irq_handler_sw cfg inp s0).1.state i = s.state i := by
    intro s0 h0
    obtain ⟨hfin, hpre⟩ := irq_handler_sw_state cfg inp s0 i hi
    have hbody := irq_slot_same cfg i (inp i) (irq_loop cfg inp 0 i s0).1
      (by rw [hpre, h0]; exact hconf) hev (by rw [hpre, h0]; exact hsw)
    rw [hpre, h0] at hbody
    exact ⟨hbody, by rw [hfin, hbody, hpre, h0]⟩
  obtain ⟨hbody, hfin⟩ := key s rfl
  refine ⟨hbody, ?_, hfin, (key _ hfin).2⟩
  rw [hbody]
  exact hbody

/-- The no-op at work: switch 1 of the sample state is pressed and an edge samples it
pressed. -/
theorem irq_unchanged_level_witness :
    (irq_handler_sw defaultConfig sample_input
        (set_state sample_sys 1 { sample_state with sw := true, sw_alarm := 7 })).1.state 1 =
      (set_state sample_sys 1 { sample_state with sw := true, sw_alarm := 7 }).state 1 :=
  (irq_unchanged_level defaultConfig sample_input
    (set_state sample_sys 1 { sample_state with sw := true, sw_alarm := 7 }) 1
    (by decide) (by decide) (by decide) (by decide)).2.2.1

/-- C7 as stated fails on `pending_sys`: a second edge at 5300 us that samples the pin
pressed, the state already stored, does not cancel the outstanding check. The handler only
acknowledges; alarm 3 stays in the pool and in `sw_alarm`. -/
theorem irq_same_level_keeps_alarm :
    (irq_handler_sw defaultConfig (edge_on 1 false 5300 4) pending_sys).2 =
        [Call.gpio_acknowledge_irq 15 12] ∧
      ((irq_handler_sw defaultConfig (edge_on 1 false 5300 4) pending_sys).1.state 1).sw_alarm
        = 3 ∧
      (irq_handler_sw defaultConfig (edge_on 1 false 5300 4) pending_sys).1.alarms =
        [{ id := 3, slot := 1, due := 6100 }] := by
  decide

/-- C7, amended: superseding edges. Let switch `i` be configured with a handle stored
(`0 ≤ sw_alarm`), and let iteration `i` of the handler find an edge event pending. If the
sampled state differs from the stored one, the iteration calls `cancel_alarm` on the stored
handle right after the acknowledge, no alarm with that handle is left in the pool it goes
on with, and the handle is replaced: by `-1` when the change is accepted, by the value
returned from the new `add_alarm_in_us` when it is deferred. If the sampled state equals
the stored one, the iteration only acknowledges and leaves pool and handle as they are. -/
theorem irq_supersede (cfg : Config) (inp : Nat → irq_input) (s : Sys) (i : Nat)
    (hi : i < cfg.NUM_SWITCHES)
    (hconf : (s.state i).configured = true)
    (hev : (inp i).events &&& event_mask ≠ 0)
    (halarm : 0 ≤ (s.state i).sw_alarm) :
    ((s.state i).sw ≠ !(inp i).gpio →
      (∃ last : Call, (irq_slot cfg i (inp i) (irq_loop cfg inp 0 i s).1).2 =
        [Call.gpio_acknowledge_irq (s.state i).sw_pin event_mask,
          Call.cancel_alarm (s.state i).sw_alarm, last]) ∧
      (∀ a ∈ cancel_alarm (irq_loop cfg inp 0 i s).1.alarms (s.state i).sw_alarm,
        a.id ≠ (s.state i).sw_alarm) ∧
      ((irq_slot cfg i (inp i) (irq_loop cfg inp 0 i s).1).1.alarms =
            cancel_alarm (irq_loop cfg inp 0 i s).1.alarms (s.state i).sw_alarm ∧
          ((irq_handler_sw cfg inp s).1.state i).sw_alarm = -1 ∨
        (irq_slot cfg i (inp i) (irq_loop cfg inp 0 i s).1).1.alarms =
            (add_alarm_in_us
              (cancel_alarm (irq_loop cfg inp 0 i s).1.alarms (s.state i).sw_alarm)
              (inp i).pick (inp i).t cfg.SWITCH_DEBOUNCE_US i).1 ∧
          ((irq_handler_sw cfg inp s).1.state i).sw_alarm =
            (add_alarm_in_us
              (cancel_alarm (irq_loop cfg inp 0 i s).1.alarms (s.state i).sw_alarm)
              (inp i).pick (inp i).t cfg.SWITCH_DEBOUNCE_US i).2)) ∧
    ((s.state i).sw = !(inp i).gpio →
      irq_slot cfg i (inp i) (irq_loop cfg inp 0 i s).1 =
          ((irq_loop cfg inp 0 i s).1,
            [Call.gpio_acknowledge_irq (s.state i).sw_pin event_mask]) ∧
        ((irq_handler_sw cfg inp s).1.state i).sw_alarm = (s.state i).sw_alarm) := by
  obtain ⟨hfin, hpre⟩ := irq_handler_sw_state cfg inp s i hi
  constructor
  · intro hsw
    refine ⟨?_, ?_, ?_⟩
    · by_cases hel : u32_sub (time_us_32 (inp i).t) (s.state i).sw_mtime <
          cfg.SWITCH_DEBOUNCE_US
      · have hbody := irq_slot_defer cfg i (inp i) (irq_loop cfg inp 0 i s).1
          (by rw [hpre]; exact hconf) hev (by rw [hpre]; exact hsw) (by rw [hpre]; exact hel)
        rw [hpre] at hbody
        rw [hbody]
        simp [halarm]
      · have hbody := irq_slot_accept cfg i (inp i) (irq_loop cfg inp 0 i s).1
          (by rw [hpre]; exact hconf) hev (by rw [hpre]; exact hsw)
          (by rw [hpre]; omega)
        rw [hpre] at hbody
        rw [hbody]
        simp [halarm]
    · intro a ha
      have := (List.mem_filter.mp ha).2
      simpa using this
    · by_cases hel : u32_sub (time_us_32 (inp i).t) (s.state i).sw_mtime <
          cfg.SWITCH_DEBOUNCE_US
      · have hbody := irq_slot_defer cfg i (inp i) (irq_loop cfg inp 0 i s).1
          (by rw [hpre]; exact hconf) hev (by rw [hpre]; exact hsw) (by rw [hpre]; exact hel)
        rw [hpre] at hbody
        right
        rw [hfin, hbody]
        simp [halarm]
      · have hbody := irq_slot_accept cfg i (inp i) (irq_loop cfg inp 0 i s).1
          (by rw [hpre]; exact hconf) hev (by rw [hpre]; exact hsw)
          (by rw [hpre]; omega)
        rw [hpre] at hbody
        left
        rw [hfin, hbody]
        simp [halarm]
  · intro hsw
    have hbody := irq_slot_same cfg i (inp i) (irq_loop cfg inp 0 i s).1
      (by rw [hpre]; exact hconf) hev (by rw [hpre]; exact hsw)
    rw [hpre] at hbody
    exact ⟨hbody, by rw [hfin, hbody, hpre]⟩

/-- Superseding at work: a release edge on switch 1 of `pending_sys` at 5300 us cancels
alarm 3. -/
theorem irq_supersede_witness :
    ∃ last : Call,
      (irq_slot defaultConfig 1 (edge_on 1 true 5300 4 1)
          (irq_loop defaultConfig (edge_on 1 true 5300 4) 0 1 pending_sys).1).2 =
        [Call.gpio_acknowledge_irq (pending_sys.state 1).sw_pin event_mask,
          Call.cancel_alarm (pending_sys.state 1).sw_alarm, last] :=
  ((irq_supersede defaultConfig (edge_on 1 true 5300 4) pending_sys 1
    (by decide) (by decide) (by decide) (by decide)).1 (by decide)).1

/-- C8, single pending timer. In every state reachable from `switch_init` by calls of
`switch_config`, runs of `irq_handler_sw`, firings of outstanding alarms (a cancelled alarm
does not fire) and reads, every table entry `j` has at most one alarm outstanding in the
pool, and the handle of such an alarm is the value stored in `sw_alarm` of entry `j`. -/
theorem single_pending_timer (cfg : Config) (s : Sys) (h : Reachable cfg s) (j : Nat) :
    (s.alarms.filter (fun a => decide (a.slot = j))).length ≤ 1 ∧
      ∀ a ∈ s.alarms, a.slot = j → a.id = (s.state j).sw_alarm := by
  have hok := pool_ok_reachable cfg s h
  refine ⟨at_most_one_of_pairwise j s.alarms hok.2, ?_⟩
  intro a ha hslot
  rw [← hslot]
  exact (hok.1 a ha).2.2.symm

/-- The single pending timer at work: after `switch_config(1, 15)` and a press edge 500 us
after start, which is deferred to alarm 3. -/
theorem single_pending_timer_witness :
    ((irq_handler_sw defaultConfig (edge_on 1 false 500 3)
        (set_state (switch_init defaultConfig boot).1 1
          { zero_state with configured := true, sw_pin := 15 % 256 })).1.alarms.filter
      (fun a => decide (a.slot = 1))).length ≤ 1 :=
  (single_pending_timer defaultConfig
    (irq_handler_sw defaultConfig (edge_on 1 false 500 3)
        (set_state (switch_init defaultConfig boot).1 1
          { zero_state with configured := true, sw_pin := 15 % 256 })).1
    ⟨[Action.config 1 15, Action.irq (edge_on 1 false 500 3)], _, rfl⟩ 1).1

/-! ## The alarm callback -/

/-- C4, the callback accepting a change, on `pending_sys`: alarm 3 fires when due at 6100 us
and reads the pin released. The callback stores the sampled state, clears the handle and
offers `(1, released)` to the queue, but `sw_mtime` still holds 5000, the time of the
change before. -/
theorem debounce_accept_keeps_sw_mtime :
    (fire_alarm 3 true pending_sys).map
        (fun r => (r.1.state 1, r.1.queue.elems, r.1.alarms, r.2)) =
      some ({ sw_pin := 15, sw_mtime := 5000, sw_alarm := -1, sw := false, configured := true },
        [{ num := 1, sw := false }], [],
        [Call.queue_try_add { num := 1, sw := false } true]) := by
  decide

/-- C5, the callback discarding a bounce. When the state sampled by `debounce` equals the
stored one, the callback makes no call at all (no event is offered), returns `0`, and
changes nothing but the handle of its entry, which becomes `-1`: table entry `i` keeps
`sw`, `sw_mtime`, pin and configured flag, every other entry, the queue and the alarm pool
are as before. Whatever the sampled level, the handle is `-1` afterwards and the return
value is `0`. -/
theorem debounce_discard (id : Int) (i : Nat) (gpio : Bool) (s : Sys)
    (hsw : (s.state i).sw = !gpio) :
    debounce id i gpio s =
        ({ s with state := Function.update s.state i { s.state i with sw_alarm := -1 } },
          [], 0) ∧
      (∀ g : Bool, ((debounce id i g s).1.state i).sw_alarm = -1 ∧
        (debounce id i g s).2.2 = 0) := by
  constructor
  · unfold debounce
    simp [hsw, set_state]
  · intro g
    refine ⟨?_, debounce_returns_zero id i g s⟩
    unfold debounce
    simp only
    split_ifs <;> simp [set_state]

/-- The discard at work: alarm 3 of `pending_sys` reads the pin pressed, as stored. -/
theorem debounce_discard_witness :
    debounce 3 1 false pending_sys =
      ({ pending_sys with
          state := Function.update pending_sys.state 1
            { pending_sys.state 1 with sw_alarm := -1 } }, [], 0) :=
  (debounce_discard 3 1 false pending_sys (by decide)).1

/-- C9 as stated fails: on `pending_sys` with handle 7 stored for a newer check (the pool
holds alarm 7, alarm 3 has been cancelled), a late call `debounce(3, &state[1])` that reads
the pin released is not a no-op. It overwrites the stored handle 7 with `-1`, stores the
sampled state and offers `(1, released)` to the queue. -/
theorem debounce_stale_id_acts :
    ((debounce 3 1 true
        { set_state pending_sys 1 { pending_sys.state 1 with sw_alarm := 7 } with
          alarms := [{ id := 7, slot := 1, due := 6300 }] }).1.state 1,
      (debounce 3 1 true
        { set_state pending_sys 1 { pending_sys.state 1 with sw_alarm := 7 } with
          alarms := [{ id := 7, slot := 1, due := 6300 }] }).1.queue.elems,
      (debounce 3 1 true
        { set_state pending_sys 1 { pending_sys.state 1 with sw_alarm := 7 } with
          alarms := [{ id := 7, slot := 1, due := 6300 }] }).2.1) =
      ({ sw_pin := 15, sw_mtime := 5000, sw_alarm := -1, sw := false, configured := true },
        [{ num := 1, sw := false }],
        [Call.queue_try_add { num := 1, sw := false } true]) := by
  decide

/-- C9, amended: the callback never looks at the alarm id. Invoked with any id, in
particular for an alarm whose id no longer matches the stored handle, `debounce` does
exactly what it does for every other id:
it leaves `sw_mtime`, pin and configured flag alone, sets the stored handle to `-1`, and
changes `sw` and offers an event exactly when the sampled state differs from the stored
one. It is a no-op on `sw`, `sw_mtime` and the queue only when the sampled state equals the
stored one. -/
theorem debounce_ignores_id (id : Int) (i : Nat) (gpio : Bool) (s : Sys) :
    (∀ id2 : Int, debounce id i gpio s = debounce id2 i gpio s) ∧
      (debounce id i gpio s).1.state i =
        { s.state i with sw_alarm := -1, sw := !gpio } ∧
      ((s.state i).sw = !gpio →
        (debounce id i gpio s).1.queue = s.queue ∧ (debounce id i gpio s).2.1 = []) ∧
      ((s.state i).sw ≠ !gpio →
        (debounce id i gpio s).1.queue =
            (queue_try_add s.queue { num := i % 256, sw := !gpio }).1 ∧
          (debounce id i gpio s).2.1 =
            [Call.queue_try_add { num := i % 256, sw := !gpio }
              (queue_try_add s.queue { num := i % 256, sw := !gpio }).2]) := by
  refine ⟨fun _ => rfl, ?_, ?_, ?_⟩
  · unfold debounce
    simp only
    split_ifs with h
    · simp only [set_state_same]
      rw [← h]
    · simp [set_state]
  · intro hsw
    unfold debounce
    simp [hsw, set_state]
  · intro hsw
    unfold debounce
    simp [hsw, set_state]

/-- The callback on a stale id, at work: stored handle 3, called with id 9 while the pin
reads pressed, as stored. -/
theorem debounce_ignores_id_witness :
    (debounce 9 1 false pending_sys).1.queue = pending_sys.queue ∧
      (debounce 9 1 false pending_sys).2.1 = [] :=
  (debounce_ignores_id 9 1 false pending_sys).2.2.1 (by decide)

/-! ## The event queue -/

/-- C10, FIFO ordering. Start in any state in which the alarm pool agrees with the table
(every reachable state is one), in a build with at most 256 switches, and let any sequence
of handler runs and alarm callbacks take place after which the queue is not full (the
queue only grows on the way, so it was never full). Then the queue holds what it held
before followed by exactly the accepted transitions `(index, new state)` in the order they
were accepted, and `k` successive `switch_read_blocking` calls return the first `k` of
them, in that order. In particular, when one handler run changes the state of switches
`i < j`, both events are among the accepted ones, the one for `i` before the one for
`j`. -/
theorem fifo_order (cfg : Config) (acts : List Action) (s s1 : Sys) (log : List Call)
    (h256 : cfg.NUM_SWITCHES ≤ 256)
    (hprod : ∀ a ∈ acts, is_producer a = true)
    (hpool : pool_ok cfg s)
    (hrun : run cfg acts s = some (s1, log))
    (hroom : s1.queue.elems.length < s1.queue.element_count) :
    s1.queue.elems = s.queue.elems ++ accepted cfg acts s ∧
      (∀ k : Nat, read_n k s1 = (s.queue.elems ++ accepted cfg acts s).take k) ∧
      (∀ (inp : Nat → irq_input) (i j : Nat), acts = [Action.irq inp] →
        i < j → j < cfg.NUM_SWITCHES →
        (s.state i).sw ≠ (s1.state i).sw → (s.state j).sw ≠ (s1.state j).sw →
        List.Sublist
          [{ num := i, sw := (s1.state i).sw }, { num := j, sw := (s1.state j).sw }]
          (accepted cfg acts s)) := by
  have hq := (producer_run_queue cfg h256 acts s (s1, log) hprod hpool hrun).2 hroom
  simp only at hq
  refine ⟨hq, ?_, ?_⟩
  · intro k
    rw [read_n_eq_take, hq]
  · intro inp i j hacts hij hj hci hcj
    subst hacts
    simp only [run, step, Option.some.injEq, Prod.mk.injEq] at hrun
    obtain ⟨hs1, _⟩ := hrun
    simp only [accepted, step, List.append_nil, hs1, changes, changes_from]
    have hsub := List.Sublist.filterMap
      (fun j => if (s.state j).sw = (s1.state j).sw then none
        else some ({ num := j, sw := (s1.state j).sw } : switch_event))
      (pair_sublist_range cfg.NUM_SWITCHES 0 i j (by omega) hij (by omega))
    simpa [hci, hcj] using hsub

/-- The order at work: one handler run on the sample state, with switches 1 and 2 pressed
at the same instant. -/
theorem fifo_order_witness :
    (irq_handler_sw defaultConfig sample_input sample_sys).1.queue.elems =
      sample_sys.queue.elems ++ accepted defaultConfig [Action.irq sample_input] sample_sys :=
  (fifo_order defaultConfig [Action.irq sample_input] sample_sys
    (irq_handler_sw defaultConfig sample_input sample_sys).1
    (irq_handler_sw defaultConfig sample_input sample_sys).2
    (by decide) (by decide) ⟨by decide, by decide⟩ rfl (by decide)).1

/-! ## Spacing of accepted changes -/

/-- C6, spacing of accepted changes, on `spacing_trace` run from program start in the
default build. After the press at 5000 us and the release edge at 5100 us the release is
deferred to alarm 3, due at 6100 us. When alarm 3 fires the release is accepted and
`sw_mtime` stays 5000. The press edge at 6110 us, 10 us after that accepted change, is then
accepted on the spot: the handler offers `(1, pressed)` without scheduling a check, and
three events are queued. -/
theorem spacing_trace_run :
    (run defaultConfig (spacing_trace.take 3) (switch_init defaultConfig boot).1).map
        (fun r => (r.1.state 1, r.1.queue.elems, r.1.alarms)) =
      some ({ sw_pin := 15, sw_mtime := 5000, sw_alarm := 3, sw := true, configured := true },
        [{ num := 1, sw := true }], [{ id := 3, slot := 1, due := 6100 }]) ∧
    (run defaultConfig (spacing_trace.take 4) (switch_init defaultConfig boot).1).map
        (fun r => (r.1.state 1, r.1.queue.elems, r.1.alarms)) =
      some ({ sw_pin := 15, sw_mtime := 5000, sw_alarm := -1, sw := false, configured := true },
        [{ num := 1, sw := true }, { num := 1, sw := false }], []) ∧
    (run defaultConfig spacing_trace (switch_init defaultConfig boot).1).map
        (fun r => (r.1.state 1, r.1.queue.elems, r.1.alarms, r.2.drop 12)) =
      some ({ sw_pin := 15, sw_mtime := 6110, sw_alarm := -1, sw := true, configured := true },
        [{ num := 1, sw := true }, { num := 1, sw := false }, { num := 1, sw := true }], [],
        [Call.gpio_acknowledge_irq 15 12, Call.queue_try_add { num := 1, sw := true } true]) := by
  decide

/-! ## The queue never overflows -/

/-- A state computed by `state_after` is reachable. -/
theorem reachable_state_after (cfg : Config) (acts : List Action) (s : Sys)
    (h : state_after cfg acts = some s) : Reachable cfg s := by
  unfold state_after at h
  cases hr : run cfg acts (switch_init cfg boot).1 with
  | none => simp [hr] at h
  | some r =>
    simp only [hr, Option.map_some', Option.some.injEq] at h
    subst h
    exact ⟨acts, r.2, hr⟩

theorem queue_try_add_le (q : queue_t) (ev : switch_event)
    (h : q.elems.length ≤ q.element_count) :
    (queue_try_add q ev).1.elems.length ≤ (queue_try_add q ev).1.element_count := by
  unfold queue_try_add
  split_ifs with h1
  · simp only [List.length_append, List.length_singleton]
    omega
  · exact h

theorem queue_try_add_full (q : queue_t) (ev : switch_event)
    (h : q.element_count ≤ q.elems.length) :
    queue_try_add q ev = (q, false) := by
  unfold queue_try_add
  rw [if_neg (by omega)]

theorem irq_slot_queue_le (cfg : Config) (i : Nat) (inp : irq_input) (s : Sys)
    (h : s.queue.elems.length ≤ s.queue.element_count) :
    (irq_slot cfg i inp s).1.queue.elems.length ≤
      (irq_slot cfg i inp s).1.queue.element_count := by
  by_cases hconf : (s.state i).configured = true
  · by_cases hev : inp.events &&& event_mask = 0
    · rw [irq_slot_no_event cfg i inp s hev]; exact h
    · by_cases hsw : (s.state i).sw = !inp.gpio
      · rw [irq_slot_same cfg i inp s hconf hev hsw]; exact h
      · by_cases hel : u32_sub (time_us_32 inp.t) (s.state i).sw_mtime < cfg.SWITCH_DEBOUNCE_US
        · rw [irq_slot_defer cfg i inp s hconf hev hsw hel]; exact h
        · rw [irq_slot_accept cfg i inp s hconf hev hsw (by omega)]
          exact queue_try_add_le s.queue _ h
  · rw [irq_slot_unconfigured cfg i inp s (by simpa using hconf)]; exact h

theorem irq_loop_queue_le (cfg : Config) (inp : Nat → irq_input) (n : Nat) :
    ∀ (lo : Nat) (s : Sys), s.queue.elems.length ≤ s.queue.element_count →
      (irq_loop cfg inp lo n s).1.queue.elems.length ≤
        (irq_loop cfg inp lo n s).1.queue.element_count := by
  induction n with
  | zero => intro lo s h; exact h
  | succ n ih =>
    intro lo s h
    simp only [irq_loop]
    exact ih (lo + 1) _ (irq_slot_queue_le cfg lo (inp lo) s h)

theorem debounce_queue_le (id : Int) (i : Nat) (gpio : Bool) (s : Sys)
    (h : s.queue.elems.length ≤ s.queue.element_count) :
    (debounce id i gpio s).1.queue.elems.length ≤
      (debounce id i gpio s).1.queue.element_count := by
  unfold debounce
  by_cases hsw : (s.state i).sw = !gpio
  · simpa [hsw, set_state] using h
  · simp only [hsw, if_false]
    exact queue_try_add_le s.queue _ h

/-- One iteration of the handler on a full queue leaves the queue as it is. -/
theorem irq_slot_queue_full (cfg : Config) (i : Nat) (inp : irq_input) (s : Sys)
    (h : s.queue.element_count ≤ s.queue.elems.length) :
    (irq_slot cfg i inp s).1.queue = s.queue := by
  by_cases hconf : (s.state i).configured = true
  · by_cases hev : inp.events &&& event_mask = 0
    · rw [irq_slot_no_event cfg i inp s hev]
    · by_cases hsw : (s.state i).sw = !inp.gpio
      · rw [irq_slot_same cfg i inp s hconf hev hsw]
      · by_cases hel : u32_sub (time_us_32 inp.t) (s.state i).sw_mtime < cfg.SWITCH_DEBOUNCE_US
        · rw [irq_slot_defer cfg i inp s hconf hev hsw hel]
        · rw [irq_slot_accept cfg i inp s hconf hev hsw (by omega)]
          simp only [queue_try_add_full s.queue _ h]
  · rw [irq_slot_unconfigured cfg i inp s (by simpa using hconf)]

theorem irq_loop_queue_full (cfg : Config) (inp : Nat → irq_input) (n : Nat) :
    ∀ (lo : Nat) (s : Sys), s.queue.element_count ≤ s.queue.elems.length →
      (irq_loop cfg inp lo n s).1.queue = s.queue := by
  induction n with
  | zero => intro lo s _; rfl
  | succ n ih =>
    intro lo s h
    simp only [irq_loop]
    have h1 := irq_slot_queue_full cfg lo (inp lo) s h
    rw [ih (lo + 1) _ (by rw [h1]; exact h), h1]

/-- A read that returns took the head of the queue and nothing else. -/
theorem switch_read_blocking_some (s s1 : Sys) (ev : switch_event)
    (h : switch_read_blocking s = some (ev, s1)) :
    ∃ rest, s.queue.elems = ev :: rest ∧
      s1 = { s with queue := { s.queue with elems := rest } } := by
  unfold switch_read_blocking queue_remove_blocking at h
  cases hq : s.queue.elems with
  | nil => simp [hq] at h
  | cons e rest =>
    simp only [hq, Option.some.injEq, Prod.mk.injEq] at h
    obtain ⟨h1, h2⟩ := h
    exact ⟨rest, by rw [h1], h2.symm⟩

theorem queue_ok_step (cfg : Config) (a : Action) (s : Sys) (r : Sys × List Call)
    (h : queue_ok cfg s) (hr : step cfg a s = some r) : queue_ok cfg r.1 := by
  obtain ⟨hc, hl⟩ := h
  cases a with
  | config num sw_pin =>
    simp only [step] at hr
    split at hr
    · rename_i r0 h0
      simp only [Option.some.injEq] at hr
      subst hr
      rw [(switch_config_ok cfg num sw_pin s r0 h0).1]
      exact ⟨hc, hl⟩
    · exact absurd hr (by simp)
  | irq inp =>
    simp only [step, Option.some.injEq] at hr
    subst hr
    have hm := (irq_loop_queue_mono cfg inp cfg.NUM_SWITCHES 0 s).2
    exact ⟨by unfold irq_handler_sw; rw [hm, hc],
      irq_loop_queue_le cfg inp cfg.NUM_SWITCHES 0 s hl⟩
  | fire id gpio =>
    obtain ⟨a, _, hr1⟩ := fire_alarm_some id gpio s r hr
    rw [hr1]
    have hm := (debounce_queue_mono a.id a.slot gpio
      { s with alarms := cancel_alarm s.alarms a.id }).2
    exact ⟨by rw [hm]; exact hc,
      debounce_queue_le a.id a.slot gpio { s with alarms := cancel_alarm s.alarms a.id } hl⟩
  | read =>
    simp only [step] at hr
    cases hrb : switch_read_blocking s with
    | none =>
      simp only [hrb, Option.some.injEq] at hr
      subst hr
      exact ⟨hc, hl⟩
    | some p =>
      obtain ⟨ev, s1⟩ := p
      simp only [hrb, Option.some.injEq] at hr
      subst hr
      obtain ⟨rest, hq, hs1⟩ := switch_read_blocking_some s s1 ev hrb
      subst hs1
      refine ⟨hc, ?_⟩
      simp only
      rw [hq] at hl
      simp only [List.length_cons] at hl
      omega

theorem queue_ok_run (cfg : Config) (acts : List Action) :
    ∀ (s : Sys) (r : Sys × List Call), queue_ok cfg s → run cfg acts s = some r →
      queue_ok cfg r.1 := by
  induction acts with
  | nil =>
    intro s r h hr
    simp only [run, Option.some.injEq] at hr
    subst hr
    exact h
  | cons a rest ih =>
    intro s r h hr
    simp only [run] at hr
    split at hr
    · exact absurd hr (by simp)
    · rename_i r1 h1
      split at hr
      · exact absurd hr (by simp)
      · rename_i r2 h2
        simp only [Option.some.injEq] at hr
        subst hr
        exact ih r1.1 r2 (queue_ok_step cfg a s r1 h h1) h2

/-- Every reachable state has the queue of `switch_init`, filled within its capacity. -/
theorem queue_ok_reachable (cfg : Config) (s : Sys) (h : Reachable cfg s) : queue_ok cfg s := by
  obtain ⟨acts, log, hrun⟩ := h
  exact queue_ok_run cfg acts _ (s, log) ⟨rfl, Nat.zero_le _⟩ hrun

/-- C11, drop-new on overflow. In every reachable state the queue holds at most
`SWITCH_QUEUE_SIZE` events. When it holds exactly that many, a run of the handler leaves the
queue exactly as it is, whatever it reads, and a change it accepts for switch `i` is still
stored in `sw` while its `queue_try_add` reports `false`; likewise a callback that accepts a
change stores it, returns `0`, and leaves the queue exactly as it is, its one
`queue_try_add` reporting `false`. Both are total functions here: the producer returns
without waiting. -/
theorem drop_new_on_overflow (cfg : Config) (s : Sys) (hreach : Reachable cfg s) :
    s.queue.elems.length ≤ cfg.SWITCH_QUEUE_SIZE ∧
      (s.queue.elems.length = cfg.SWITCH_QUEUE_SIZE →
        (∀ inp : Nat → irq_input,
          (irq_handler_sw cfg inp s).1.queue = s.queue ∧
          ∀ i, i < cfg.NUM_SWITCHES → (s.state i).configured = true →
            (inp i).events &&& event_mask ≠ 0 → (s.state i).sw ≠ !(inp i).gpio →
            cfg.SWITCH_DEBOUNCE_US ≤ u32_sub (time_us_32 (inp i).t) (s.state i).sw_mtime →
            ((irq_handler_sw cfg inp s).1.state i).sw = !(inp i).gpio ∧
              Call.queue_try_add { num := i % 256, sw := !(inp i).gpio } false ∈
                (irq_handler_sw cfg inp s).2) ∧
        (∀ (id : Int) (i : Nat) (gpio : Bool), (s.state i).sw ≠ !gpio →
          (debounce id i gpio s).1.queue = s.queue ∧
            ((debounce id i gpio s).1.state i).sw = !gpio ∧
            (debounce id i gpio s).2.1 =
              [Call.queue_try_add { num := i % 256, sw := !gpio } false] ∧
            (debounce id i gpio s).2.2 = 0)) := by
  obtain ⟨hc, hl⟩ := queue_ok_reachable cfg s hreach
  refine ⟨by omega, fun hfull => ⟨fun inp => ⟨?_, ?_⟩, ?_⟩⟩
  · exact irq_loop_queue_full cfg inp cfg.NUM_SWITCHES 0 s (by omega)
  · intro i hi hconf hev hsw hel
    obtain ⟨hfin, hpre⟩ := irq_handler_sw_state cfg inp s i hi
    have hq : (irq_loop cfg inp 0 i s).1.queue = s.queue :=
      irq_loop_queue_full cfg inp i 0 s (by omega)
    have hbody := irq_slot_accept cfg i (inp i) (irq_loop cfg inp 0 i s).1
      (by rw [hpre]; exact hconf) hev (by rw [hpre]; exact hsw) (by rw [hpre]; exact hel)
    rw [hpre, hq, queue_try_add_full s.queue _ (by omega)] at hbody
    constructor
    · rw [hfin, hbody]; simp
    · rw [irq_handler_sw_cut cfg inp s i hi, hbody]
      simp
  · intro id i gpio hsw
    refine ⟨?_, ?_, ?_, debounce_returns_zero id i gpio s⟩
    · unfold debounce
      simp [hsw, set_state, queue_try_add_full s.queue _ (by omega : s.queue.element_count ≤ _)]
    · unfold debounce
      simp [hsw, set_state]
    · unfold debounce
      simp [hsw, set_state, queue_try_add_full s.queue _ (by omega : s.queue.element_count ≤ _)]

set_option maxRecDepth 100000 in
/-- The overflow at work: on `full_sys` a seventeenth change of switch 1, a press at
40000 us, is stored while the queue stays as it is. -/
theorem drop_new_on_overflow_witness :
    (irq_handler_sw defaultConfig (edge_on 1 false 40000 3) full_sys).1.queue = full_sys.queue ∧
      ((irq_handler_sw defaultConfig (edge_on 1 false 40000 3) full_sys).1.state 1).sw =
        !(edge_on 1 false 40000 3 1).gpio :=
  have h := (drop_new_on_overflow defaultConfig full_sys
    (reachable_state_after defaultConfig (toggle_trace 16) full_sys rfl)).2 (by decide)
  ⟨(h.1 (edge_on 1 false 40000 3)).1,
    ((h.1 (edge_on 1 false 40000 3)).2 1 (by decide) (by decide) (by decide) (by decide)
      (by decide)).1⟩

/-! ## What a full queue keeps -/

theorem take_append_take (n : Nat) (l l2 : List switch_event) :
    (l.take n ++ l2).take n = (l ++ l2).take n := by
  by_cases h : l.length ≤ n
  · rw [List.take_of_length_le h]
  · have h1 : n ≤ l.length := by omega
    rw [List.take_append_of_le_length h1,
      List.take_append_of_le_length (by simp [h1]), List.take_take]
    simp

/-- Offering one event to a queue within its capacity keeps the first `element_count` of
what was queued followed by the event. -/
theorem queue_try_add_take (q : queue_t) (ev : switch_event)
    (h : q.elems.length ≤ q.element_count) :
    (queue_try_add q ev).1.elems = (q.elems ++ [ev]).take q.element_count := by
  unfold queue_try_add
  split_ifs with h1
  · rw [List.take_of_length_le (by simp; omega)]
  · rw [List.take_left' (by omega)]

/-- One iteration of the handler keeps the first `element_count` of what was queued followed
by the change it accepted. -/
theorem irq_slot_queue_take (cfg : Config) (i : Nat) (inp : irq_input) (s : Sys) (hi : i < 256)
    (hlen : s.queue.elems.length ≤ s.queue.element_count) :
    (irq_slot cfg i inp s).1.queue.elems =
      (s.queue.elems ++ changes_from s (irq_slot cfg i inp s).1 i 1).take
        s.queue.element_count := by
  have hmod : i % 256 = i := Nat.mod_eq_of_lt hi
  have hsame : s.queue.elems = (s.queue.elems ++ []).take s.queue.element_count := by
    rw [List.append_nil, List.take_of_length_le hlen]
  rw [changes_from_one]
  by_cases hconf : (s.state i).configured = true
  · by_cases hev : inp.events &&& event_mask = 0
    · rw [irq_slot_no_event cfg i inp s hev]; simpa using hsame
    · by_cases hsw : (s.state i).sw = !inp.gpio
      · rw [irq_slot_same cfg i inp s hconf hev hsw]; simpa using hsame
      · by_cases hel : u32_sub (time_us_32 inp.t) (s.state i).sw_mtime < cfg.SWITCH_DEBOUNCE_US
        · rw [irq_slot_defer cfg i inp s hconf hev hsw hel]; simpa using hsame
        · rw [irq_slot_accept cfg i inp s hconf hev hsw (by omega)]
          simp only [Function.update_same, hsw, if_false, hmod]
          exact queue_try_add_take s.queue _ hlen
  · rw [irq_slot_unconfigured cfg i inp s (by simpa using hconf)]; simpa using hsame

theorem irq_loop_queue_take (cfg : Config) (inp : Nat → irq_input) (n : Nat) :
    ∀ (lo : Nat) (s : Sys), lo + n ≤ 256 → s.queue.elems.length ≤ s.queue.element_count →
      (irq_loop cfg inp lo n s).1.queue.elems =
        (s.queue.elems ++ changes_from s (irq_loop cfg inp lo n s).1 lo n).take
          s.queue.element_count := by
  induction n with
  | zero =>
    intro lo s _ hlen
    simp [irq_loop, changes_from, List.take_of_length_le hlen]
  | succ n ih =>
    intro lo s hlo hlen
    have hcap := (irq_slot_queue_mono cfg lo (inp lo) s).2
    have hle := irq_slot_queue_le cfg lo (inp lo) s hlen
    have h1 := irq_slot_queue_take cfg lo (inp lo) s (by omega) hlen
    simp only [irq_loop]
    rw [ih (lo + 1) _ (by omega) hle, hcap, h1, take_append_take,
      changes_from_succ s (irq_loop cfg inp (lo + 1) n (irq_slot cfg lo (inp lo) s).1).1 lo n,
      List.append_assoc]
    congr 3
    · apply changes_from_congr
      intro j hj1 hj2
      refine ⟨rfl, ?_⟩
      exact (irq_loop_state_outside cfg inp n (lo + 1) _ j (Or.inl (by omega))).symm
    · apply changes_from_congr
      intro j hj1 hj2
      exact ⟨irq_slot_state_other cfg lo j (inp lo) s (by omega), rfl⟩

theorem debounce_queue_take (id : Int) (i : Nat) (gpio : Bool) (s : Sys) (hi : i < 256)
    (hlen : s.queue.elems.length ≤ s.queue.element_count) :
    (debounce id i gpio s).1.queue.elems =
      (s.queue.elems ++ changes_from s (debounce id i gpio s).1 i 1).take
        s.queue.element_count := by
  have hmod : i % 256 = i := Nat.mod_eq_of_lt hi
  rw [changes_from_one]
  unfold debounce
  by_cases hsw : (s.state i).sw = !gpio
  · simp [hsw, set_state, List.take_of_length_le hlen]
  · simp only [hsw, if_false, hmod, set_state, Function.update_same]
    exact queue_try_add_take s.queue _ hlen

/-- One action of the producer side keeps the first `element_count` of what was queued
followed by the changes it accepted. -/
theorem producer_step_take (cfg : Config) (a : Action) (s : Sys) (r : Sys × List Call)
    (h256 : cfg.NUM_SWITCHES ≤ 256) (hprod : is_producer a = true) (hpool : pool_ok cfg s)
    (hlen : s.queue.elems.length ≤ s.queue.element_count)
    (hr : step cfg a s = some r) :
    r.1.queue.elems = (s.queue.elems ++ changes cfg s r.1).take s.queue.element_count := by
  cases a with
  | config num sw_pin => simp [is_producer] at hprod
  | read => simp [is_producer] at hprod
  | irq inp =>
    simp only [step, Option.some.injEq] at hr
    subst hr
    exact irq_loop_queue_take cfg inp cfg.NUM_SWITCHES 0 s (by omega) hlen
  | fire id gpio =>
    obtain ⟨a, hmem, hr1⟩ := fire_alarm_some id gpio s r hr
    have hslot : a.slot < cfg.NUM_SWITCHES := (hpool.1 a hmem).2.1
    rw [hr1, debounce_queue_take a.id a.slot gpio
      { s with alarms := cancel_alarm s.alarms a.id } (by omega) hlen]
    show (s.queue.elems ++ _).take _ = (s.queue.elems ++ _).take _
    congr 2
    unfold changes
    rw [changes_from_single s _ a.slot ?_ cfg.NUM_SWITCHES 0 (by omega) (by omega)]
    · exact changes_from_congr _ _ _ _ _ _ (fun j _ _ => ⟨rfl, rfl⟩)
    · intro j hj
      obtain ⟨st, q, _, hshape⟩ := debounce_shape a.id a.slot gpio
        { s with alarms := cancel_alarm s.alarms a.id }
      rw [hshape]
      simp [Function.update_noteq hj]

theorem producer_run_take (cfg : Config) (h256 : cfg.NUM_SWITCHES ≤ 256) (acts : List Action) :
    ∀ (s : Sys) (r : Sys × List Call), (∀ a ∈ acts, is_producer a = true) → pool_ok cfg s →
      s.queue.elems.length ≤ s.queue.element_count → run cfg acts s = some r →
      r.1.queue.elems = (s.queue.elems ++ accepted cfg acts s).take s.queue.element_count ∧
        r.1.queue.element_count = s.queue.element_count := by
  induction acts with
  | nil =>
    intro s r _ _ hlen hr
    simp only [run, Option.some.injEq] at hr
    subst hr
    simp [accepted, List.take_of_length_le hlen]
  | cons a rest ih =>
    intro s r hprod hpool hlen hr
    simp only [run] at hr
    split at hr
    · exact absurd hr (by simp)
    · rename_i r1 h1
      split at hr
      · exact absurd hr (by simp)
      · rename_i r2 h2
        simp only [Option.some.injEq] at hr
        subst hr
        have hp := hprod a (List.mem_cons_self a rest)
        have q1 := producer_step_take cfg a s r1 h256 hp hpool hlen h1
        obtain ⟨⟨_, c1⟩, _⟩ := producer_step_queue cfg a s r1 h256 hp hpool h1
        have hlen1 : r1.1.queue.elems.length ≤ r1.1.queue.element_count := by
          rw [q1, c1, List.length_take]
          exact Nat.min_le_left _ _
        obtain ⟨q2, c2⟩ := ih r1.1 r2
          (fun b hb => hprod b (List.mem_cons_of_mem a hb)) (pool_ok_step cfg a s r1 hpool h1)
          hlen1 h2
        refine ⟨?_, by rw [c2, c1]⟩
        simp only
        rw [q2, c1, q1, take_append_take]
        simp [accepted, h1]

/-- A single run of the handler, as a sequence of actions. -/
theorem run_irq (cfg : Config) (inp : Nat → irq_input) (s : Sys) :
    run cfg [Action.irq inp] s =
      some ((irq_handler_sw cfg inp s).1, (irq_handler_sw cfg inp s).2 ++ []) := rfl

set_option maxRecDepth 100000 in
/-- C12 as stated fails on `toggle_trace 17` from program start in the default build:
seventeen changes of switch 1 are accepted and nothing is read. The queue then holds the
first sixteen of them, not the most recent sixteen; the one lost is the newest. -/
theorem overflow_loses_newest :
    (accepted defaultConfig (toggle_trace 17) (switch_init defaultConfig boot).1).length = 17 ∧
      (state_after defaultConfig (toggle_trace 17)).map (fun s => s.queue.elems) =
        some ((accepted defaultConfig (toggle_trace 17)
          (switch_init defaultConfig boot).1).take 16) ∧
      (state_after defaultConfig (toggle_trace 17)).map (fun s => s.queue.elems) ≠
        some ((accepted defaultConfig (toggle_trace 17)
          (switch_init defaultConfig boot).1).drop 1) := by
  decide

/-- C12, amended: bounded loss under saturation. Start in any state in which the alarm pool
agrees with the table and the queue is within its capacity (every reachable state is one),
in a build with at most 256 switches, and let any sequence of handler runs and alarm
callbacks take place with no read in between. Then the queue holds the first
`element_count` events of what it held before followed by the accepted transitions in the
order they were accepted: when more are accepted than fit, the newest are the ones lost,
the oldest stay in place, and the queue never exceeds its capacity. -/
theorem overflow_keeps_oldest (cfg : Config) (acts : List Action) (s s1 : Sys)
    (log : List Call) (h256 : cfg.NUM_SWITCHES ≤ 256)
    (hprod : ∀ a ∈ acts, is_producer a = true)
    (hpool : pool_ok cfg s)
    (hlen : s.queue.elems.length ≤ s.queue.element_count)
    (hrun : run cfg acts s = some (s1, log)) :
    s1.queue.elems = (s.queue.elems ++ accepted cfg acts s).take s.queue.element_count ∧
      s1.queue.elems.length ≤ s.queue.element_count ∧
      s1.queue.element_count = s.queue.element_count := by
  obtain ⟨hq, hc⟩ := producer_run_take cfg h256 acts s (s1, log) hprod hpool hlen hrun
  simp only at hq hc
  refine ⟨hq, ?_, hc⟩
  rw [hq, List.length_take]
  exact Nat.min_le_left _ _

set_option maxRecDepth 100000 in
/-- The bounded loss at work: one more press of switch 1 on the full queue of `full_sys`. -/
theorem overflow_keeps_oldest_witness :
    (irq_handler_sw defaultConfig (edge_on 1 false 40000 3) full_sys).1.queue.elems =
      (full_sys.queue.elems ++
        accepted defaultConfig [Action.irq (edge_on 1 false 40000 3)] full_sys).take
          full_sys.queue.element_count :=
  (overflow_keeps_oldest defaultConfig [Action.irq (edge_on 1 false 40000 3)] full_sys
    (irq_handler_sw defaultConfig (edge_on 1 false 40000 3) full_sys).1
    ((irq_handler_sw defaultConfig (edge_on 1 false 40000 3) full_sys).2 ++ [])
    (by decide) (by decide) ⟨by decide, by decide⟩ (by decide)
    (run_irq defaultConfig (edge_on 1 false 40000 3) full_sys)).1

/-! ## Configuration -/

/-- C13, configure once. For an index inside the table and a pin number that fits
`uint8_t`: on an unconfigured entry `switch_config` returns, and the only change to the
driver is that this entry is marked configured and holds the pin; its `sw`, `sw_mtime` and
`sw_alarm`, every other entry, the queue and the alarm pool are as before. On an entry that
is already configured the call ends in `panic` before anything is written: it does not
return and yields no new state. -/
theorem switch_config_once (cfg : Config) (num sw_pin : Nat) (s : Sys)
    (hnum : num < cfg.NUM_SWITCHES) (hpin : sw_pin < 256) :
    ((s.state num).configured = false →
      ∃ log : List Call, switch_config cfg num sw_pin s =
        Except.ok ({ s with
          state := Function.update s.state num
            { s.state num with configured := true, sw_pin := sw_pin } }, log)) ∧
      ((s.state num).configured = true →
        switch_config cfg num sw_pin s = Except.error Fault.panic) := by
  have hmod : sw_pin % 256 = sw_pin := Nat.mod_eq_of_lt hpin
  have _hin : num < cfg.NUM_SWITCHES := hnum
  constructor
  · intro hconf
    unfold switch_config
    simp only [hconf, if_false, hmod, set_state, Bool.false_eq_true]
    exact ⟨_, rfl⟩
  · intro hconf
    unfold switch_config
    simp [hconf]

/-- Configure once, at work: `switch_config(1, 15)` right after `switch_init`, and the same
call on the configured switch 1 of the sample state. -/
theorem switch_config_once_witness :
    (∃ log : List Call, switch_config defaultConfig 1 15 (switch_init defaultConfig boot).1 =
        Except.ok ({ (switch_init defaultConfig boot).1 with
          state := Function.update (switch_init defaultConfig boot).1.state 1
            { (switch_init defaultConfig boot).1.state 1 with
              configured := true, sw_pin := 15 } }, log)) ∧
      switch_config defaultConfig 1 15 sample_sys = Except.error Fault.panic :=
  ⟨(switch_config_once defaultConfig 1 15 (switch_init defaultConfig boot).1
      (by decide) (by decide)).1 (by decide),
    (switch_config_once defaultConfig 1 15 sample_sys (by decide) (by decide)).2 (by decide)⟩

/-- Measured from a zero `sw_mtime`, the elapsed time is the 32-bit time itself. -/
theorem u32_sub_zero (t : Nat) : u32_sub (time_us_32 t) 0 = time_us_32 t := by
  unfold u32_sub time_us_32
  omega

/-- C16 as stated fails: in the default build, after `switch_init` and
`switch_config(1, 15)`, a first press edge 500 us after the counter started is not
accepted. The handler defers it to alarm 3, due at 1500 us; `sw` stays released and the
queue stays empty. -/
theorem first_edge_deferred :
    (state_after defaultConfig [Action.config 1 15, Action.irq (edge_on 1 false 500 3)]).map
        (fun s => (s.state 1, s.queue.elems, s.alarms)) =
      some ({ sw_pin := 15, sw_mtime := 0, sw_alarm := 3, sw := false, configured := true },
        [], [{ id := 3, slot := 1, due := 1500 }]) := by
  decide

/-- C16, amended: the first edge after start. For a configured entry `i` whose `sw_mtime`
still has its initial value zero, an edge on which the handler samples a state different
from the stored one is accepted on the spot, with an event offered to the queue, exactly
when the 32-bit time read is at least `SWITCH_DEBOUNCE_US`. When the time read is smaller,
as in the first `SWITCH_DEBOUNCE_US` microseconds after the counter starts or wraps, the
edge is deferred like any other: `sw` and `sw_mtime` stay, no event is offered, and one
`add_alarm_in_us` call is made. -/
theorem first_edge (cfg : Config) (inp : Nat → irq_input) (s : Sys) (i : Nat)
    (hi : i < cfg.NUM_SWITCHES)
    (hconf : (s.state i).configured = true)
    (hev : (inp i).events &&& event_mask ≠ 0)
    (hsw : (s.state i).sw ≠ !(inp i).gpio)
    (hfresh : (s.state i).sw_mtime = 0) :
    (cfg.SWITCH_DEBOUNCE_US ≤ time_us_32 (inp i).t →
      ((irq_handler_sw cfg inp s).1.state i).sw = !(inp i).gpio ∧
        ((irq_handler_sw cfg inp s).1.state i).sw_mtime = time_us_32 (inp i).t ∧
        ∃ ok : Bool, Call.queue_try_add { num := i % 256, sw := !(inp i).gpio } ok ∈
          (irq_slot cfg i (inp i) (irq_loop cfg inp 0 i s).1).2) ∧
      (time_us_32 (inp i).t < cfg.SWITCH_DEBOUNCE_US →
        ((irq_handler_sw cfg inp s).1.state i).sw = (s.state i).sw ∧
          ((irq_handler_sw cfg inp s).1.state i).sw_mtime = 0 ∧
          (irq_slot cfg i (inp i) (irq_loop cfg inp 0 i s).1).1.queue =
            (irq_loop cfg inp 0 i s).1.queue ∧
          (∀ (ev : switch_event) (ok : Bool), Call.queue_try_add ev ok ∉
            (irq_slot cfg i (inp i) (irq_loop cfg inp 0 i s).1).2) ∧
          ∃ ret : Int, Call.add_alarm_in_us cfg.SWITCH_DEBOUNCE_US i true ret ∈
            (irq_slot cfg i (inp i) (irq_loop cfg inp 0 i s).1).2) := by
  obtain ⟨hfin, hpre⟩ := irq_handler_sw_state cfg inp s i hi
  have hz := u32_sub_zero (inp i).t
  constructor
  · intro ht
    have hbody := irq_slot_accept cfg i (inp i) (irq_loop cfg inp 0 i s).1
      (by rw [hpre]; exact hconf) hev (by rw [hpre]; exact hsw)
      (by rw [hpre, hfresh, hz]; exact ht)
    rw [hpre] at hbody
    refine ⟨by rw [hfin, hbody]; simp, by rw [hfin, hbody]; simp, ?_⟩
    rw [hbody]
    exact ⟨_, List.mem_cons_of_mem _
      (List.mem_append_right _ (List.mem_singleton_self _))⟩
  · intro ht
    have hbody := irq_slot_defer cfg i (inp i) (irq_loop cfg inp 0 i s).1
      (by rw [hpre]; exact hconf) hev (by rw [hpre]; exact hsw)
      (by rw [hpre, hfresh, hz]; exact ht)
    rw [hpre] at hbody
    refine ⟨by rw [hfin, hbody]; simp, by rw [hfin, hbody]; simp [hfresh], by rw [hbody], ?_, ?_⟩
    · intro ev ok
      rw [hbody]
      by_cases h0 : 0 ≤ (s.state i).sw_alarm <;> simp [h0]
    · rw [hbody]
      exact ⟨_, List.mem_cons_of_mem _
      (List.mem_append_right _ (List.mem_singleton_self _))⟩

/-- The first edge at work: switch 1 of the sample state, whose `sw_mtime` is zero, pressed
at 5000 us. -/
theorem first_edge_witness :
    ((irq_handler_sw defaultConfig sample_input sample_sys).1.state 1).sw =
      !(sample_input 1).gpio :=
  ((first_edge defaultConfig sample_input sample_sys 1
    (by decide) (by decide) (by decide) (by decide) (by decide)).1 (by decide)).1

/-- C17, the handle at program start, in the default build. After `switch_init` and
`switch_config(1, 15)` no alarm is outstanding, yet `sw_alarm` of entry 1 holds its
zero-initialised value 0, which the handler takes for a stored handle: on the first press
edge, at 5000 us, it calls `cancel_alarm(0)` although `add_alarm_in_us` was never
called. -/
theorem boot_handle_cancelled :
    (state_after defaultConfig [Action.config 1 15]).map
        (fun s => ((s.state 1).sw_alarm, s.alarms)) = some (0, []) ∧
      (run defaultConfig [Action.config 1 15, Action.irq (edge_on 1 false 5000 3)]
          (switch_init defaultConfig boot).1).map (fun r => r.2.drop 6) =
        some [Call.gpio_acknowledge_irq 15 12, Call.cancel_alarm 0,
          Call.queue_try_add { num := 1, sw := true } true] := by
  decide

/-! ## The bounce scenario -/

/-- A stretch of the loop in which no iteration finds an edge event does nothing. -/
theorem irq_loop_quiet (cfg : Config) (inp : Nat → irq_input) (n : Nat) :
    ∀ (lo : Nat) (s : Sys),
      (∀ j, lo ≤ j → j < lo + n → (inp j).events &&& event_mask = 0) →
      irq_loop cfg inp lo n s = (s, []) := by
  induction n with
  | zero => intro lo s _; rfl
  | succ n ih =>
    intro lo s h
    simp only [irq_loop]
    rw [irq_slot_no_event cfg lo (inp lo) s (h lo (le_refl _) (by omega)),
      ih (lo + 1) s (fun j h1 h2 => h j (by omega) (by omega))]
    rfl

/-- With an edge event on switch `k` only, the handler is its iteration `k`. -/
theorem irq_handler_sw_edge_on (cfg : Config) (k : Nat) (gpio : Bool) (t : Nat) (pick : Int)
    (s : Sys) (hk : k < cfg.NUM_SWITCHES) :
    irq_handler_sw cfg (edge_on k gpio t pick) s =
      irq_slot cfg k { events := event_mask, gpio := gpio, t := t, pick := pick } s := by
  have hq : ∀ j, j ≠ k → (edge_on k gpio t pick j).events &&& event_mask = 0 := by
    intro j hj
    simp [edge_on, hj]
  have hk2 : edge_on k gpio t pick k =
      { events := event_mask, gpio := gpio, t := t, pick := pick } := by
    simp [edge_on]
  rw [irq_handler_sw_cut cfg _ s k hk,
    irq_loop_quiet cfg _ k 0 s (fun j _ h2 => hq j (by omega)), hk2,
    irq_loop_quiet cfg _ _ (k + 1) _ (fun j h1 _ => hq j (by omega))]
  simp

/-- Elapsed time between two reads of the 32-bit counter that are `d < 2^32` apart. -/
theorem u32_sub_elapsed (t0 d : Nat) (hd : d < 2 ^ 32) :
    u32_sub (time_us_32 (t0 + d)) (time_us_32 t0) = d := by
  unfold u32_sub time_us_32
  omega

/-- An alarm added last under a handle no other outstanding alarm has: when it fires, the
pool is back to what it was before and its callback runs. -/
theorem fire_alarm_last (a : alarm) (gpio : Bool) (st : Nat → state) (q : queue_t)
    (pool : List alarm) (hfresh : ∀ x ∈ pool, x.id ≠ a.id) :
    fire_alarm a.id gpio { state := st, queue := q, alarms := pool ++ [a] } =
      some ((debounce a.id a.slot gpio { state := st, queue := q, alarms := pool }).1,
        (debounce a.id a.slot gpio { state := st, queue := q, alarms := pool }).2.1) := by
  have hfind : (pool ++ [a]).find? (fun x => decide (x.id = a.id)) = some a := by
    rw [List.find?_append, List.find?_eq_none.mpr (by simpa using hfresh)]
    simp
  have hcancel : cancel_alarm (pool ++ [a]) a.id = pool := by
    unfold cancel_alarm
    rw [List.filter_append, List.filter_eq_self.mpr (by simpa using hfresh)]
    simp
  unfold fire_alarm
  simp only [hfind, hcancel, debounce_returns_zero, if_true]

/-- C15, the bounce scenario, for a debounce window of 1000 us and time zero at `T`. Let
switch 0 be configured and released, with no handle stored, its last change at least
1000 us before `T`, room in the queue, and let the alarm pool hand out the unused handle
`pick`. Then, step by step along `bounce_trace`: the edge at `T` sampling pressed is
accepted at once and `(0, pressed)` is queued; the edge at `T + 100` sampling released only
schedules a check, due at `T + 1100`, and stores its handle; the edge at `T + 300` sampling
pressed changes nothing and the check stays scheduled; the check fires, samples pressed,
which is the stored state, and offers nothing. At the end `sw` is pressed, the handle is
`-1`, the pool is as at the start, and the one `queue_try_add` of the whole run is the one
of `(0, pressed)`. -/
theorem bounce_scenario (cfg : Config) (s : Sys) (T : Nat) (pick : Int)
    (hD : cfg.SWITCH_DEBOUNCE_US = 1000) (hN : 0 < cfg.NUM_SWITCHES)
    (hconf : (s.state 0).configured = true) (hsw : (s.state 0).sw = false)
    (hal : (s.state 0).sw_alarm < 0)
    (hel : 1000 ≤ u32_sub (time_us_32 T) (s.state 0).sw_mtime)
    (hpick : 0 < pick) (hfresh : ∀ a ∈ s.alarms, a.id ≠ pick)
    (hroom : s.queue.elems.length < s.queue.element_count) :
    (run cfg ((bounce_trace T pick).take 1) s).map
        (fun r => (r.1.state 0, r.1.queue.elems, r.1.alarms, r.2)) =
      some ({ s.state 0 with sw := true, sw_mtime := time_us_32 T },
        s.queue.elems ++ [{ num := 0, sw := true }], s.alarms,
        [Call.gpio_acknowledge_irq (s.state 0).sw_pin event_mask,
          Call.queue_try_add { num := 0, sw := true } true]) ∧
    (run cfg ((bounce_trace T pick).take 2) s).map
        (fun r => (r.1.state 0, r.1.queue.elems, r.1.alarms, r.2)) =
      some ({ s.state 0 with sw := true, sw_mtime := time_us_32 T, sw_alarm := pick },
        s.queue.elems ++ [{ num := 0, sw := true }],
        s.alarms ++ [{ id := pick, slot := 0, due := T + 1100 }],
        [Call.gpio_acknowledge_irq (s.state 0).sw_pin event_mask,
          Call.queue_try_add { num := 0, sw := true } true,
          Call.gpio_acknowledge_irq (s.state 0).sw_pin event_mask,
          Call.add_alarm_in_us 1000 0 true pick]) ∧
    (run cfg ((bounce_trace T pick).take 3) s).map
        (fun r => (r.1.state 0, r.1.queue.elems, r.1.alarms, r.2)) =
      some ({ s.state 0 with sw := true, sw_mtime := time_us_32 T, sw_alarm := pick },
        s.queue.elems ++ [{ num := 0, sw := true }],
        s.alarms ++ [{ id := pick, slot := 0, due := T + 1100 }],
        [Call.gpio_acknowledge_irq (s.state 0).sw_pin event_mask,
          Call.queue_try_add { num := 0, sw := true } true,
          Call.gpio_acknowledge_irq (s.state 0).sw_pin event_mask,
          Call.add_alarm_in_us 1000 0 true pick,
          Call.gpio_acknowledge_irq (s.state 0).sw_pin event_mask]) ∧
    (run cfg (bounce_trace T pick) s).map
        (fun r => (r.1.state 0, r.1.queue.elems, r.1.alarms, r.2)) =
      some ({ s.state 0 with sw := true, sw_mtime := time_us_32 T, sw_alarm := -1 },
        s.queue.elems ++ [{ num := 0, sw := true }], s.alarms,
        [Call.gpio_acknowledge_irq (s.state 0).sw_pin event_mask,
          Call.queue_try_add { num := 0, sw := true } true,
          Call.gpio_acknowledge_irq (s.state 0).sw_pin event_mask,
          Call.add_alarm_in_us 1000 0 true pick,
          Call.gpio_acknowledge_irq (s.state 0).sw_pin event_mask]) := by
  have hmask : event_mask &&& event_mask ≠ 0 := by decide
  have hal0 : ¬ 0 ≤ (s.state 0).sw_alarm := by omega
  -- the edge at `T`
  have e1 : irq_handler_sw cfg (edge_on 0 false T pick) s =
      ({ state := Function.update s.state 0
            { s.state 0 with sw := true, sw_mtime := time_us_32 T },
         queue := { s.queue with elems := s.queue.elems ++ [{ num := 0, sw := true }] },
         alarms := s.alarms },
        [Call.gpio_acknowledge_irq (s.state 0).sw_pin event_mask,
          Call.queue_try_add { num := 0, sw := true } true]) := by
    rw [irq_handler_sw_edge_on cfg 0 false T pick s hN,
      irq_slot_accept cfg 0 _ s hconf hmask (by simp [hsw]) (by rw [hD]; exact hel)]
    simp [hal0, queue_try_add, hroom]
  -- the edge at `T + 100`
  have e2 : irq_handler_sw cfg (edge_on 0 true (T + 100) pick)
      { state := Function.update s.state 0
            { s.state 0 with sw := true, sw_mtime := time_us_32 T },
        queue := { s.queue with elems := s.queue.elems ++ [{ num := 0, sw := true }] },
        alarms := s.alarms } =
      ({ state := Function.update s.state 0
            { s.state 0 with sw := true, sw_mtime := time_us_32 T, sw_alarm := pick },
         queue := { s.queue with elems := s.queue.elems ++ [{ num := 0, sw := true }] },
         alarms := s.alarms ++ [{ id := pick, slot := 0, due := T + 1100 }] },
        [Call.gpio_acknowledge_irq (s.state 0).sw_pin event_mask,
          Call.add_alarm_in_us 1000 0 true pick]) := by
    have hadd : add_alarm_in_us s.alarms pick (T + 100) 1000 0 =
        (s.alarms ++ [{ id := pick, slot := 0, due := T + 1100 }], pick) := by
      unfold add_alarm_in_us
      rw [if_pos ⟨hpick, hfresh⟩]
    rw [irq_handler_sw_edge_on cfg 0 true (T + 100) pick _ hN,
      irq_slot_defer cfg 0 _ _ (by simpa using hconf) hmask (by simp)
        (by simp only [Function.update_same]
            rw [u32_sub_elapsed T 100 (by decide), hD]; decide)]
    simp [hal0, hD, hadd]
  -- the edge at `T + 300`
  have e3 : irq_handler_sw cfg (edge_on 0 false (T + 300) pick)
      { state := Function.update s.state 0
            { s.state 0 with sw := true, sw_mtime := time_us_32 T, sw_alarm := pick },
        queue := { s.queue with elems := s.queue.elems ++ [{ num := 0, sw := true }] },
        alarms := s.alarms ++ [{ id := pick, slot := 0, due := T + 1100 }] } =
      ({ state := Function.update s.state 0
            { s.state 0 with sw := true, sw_mtime := time_us_32 T, sw_alarm := pick },
         queue := { s.queue with elems := s.queue.elems ++ [{ num := 0, sw := true }] },
         alarms := s.alarms ++ [{ id := pick, slot := 0, due := T + 1100 }] },
        [Call.gpio_acknowledge_irq (s.state 0).sw_pin event_mask]) := by
    rw [irq_handler_sw_edge_on cfg 0 false (T + 300) pick _ hN,
      irq_slot_same cfg 0 _ _ (by simpa using hconf) hmask (by simp)]
    simp
  -- the check fires
  have e4 := fire_alarm_last { id := pick, slot := 0, due := T + 1100 } false
    (Function.update s.state 0
      { s.state 0 with sw := true, sw_mtime := time_us_32 T, sw_alarm := pick })
    { s.queue with elems := s.queue.elems ++ [{ num := 0, sw := true }] } s.alarms hfresh
  refine ⟨?_, ?_, ?_, ?_⟩
  · simp [bounce_trace, run, step, e1]
  · simp [bounce_trace, run, step, e1, e2]
  · simp [bounce_trace, run, step, e1, e2, e3]
  · simp [bounce_trace, run, step, e1, e2, e3, e4, debounce, set_state]

/-- The scenario at work in the default build: switch 0 on pin 15, time zero at 5000 us,
handle 3. -/
theorem bounce_scenario_witness :
    (run defaultConfig (bounce_trace 5000 3) (set_state sample_sys 0 sample_state)).map
        (fun r => (r.1.state 0, r.1.queue.elems, r.1.alarms, r.2)) =
      some ({ sw_pin := 15, sw_mtime := 5000, sw_alarm := -1, sw := true, configured := true },
        [{ num := 0, sw := true }], [],
        [Call.gpio_acknowledge_irq 15 12, Call.queue_try_add { num := 0, sw := true } true,
          Call.gpio_acknowledge_irq 15 12, Call.add_alarm_in_us 1000 0 true 3,
          Call.gpio_acknowledge_irq 15 12]) :=
  (bounce_scenario defaultConfig (set_state sample_sys 0 sample_state) 5000 3 rfl
    (by decide) (by decide) (by decide) (by decide) (by decide) (by decide) (by decide)
    (by decide)).2.2.2

/-! ## Entries do not interfere -/

/-- One iteration of the handler changes no pin and no configured flag. -/
theorem irq_slot_keeps_binding (cfg : Config) (i j : Nat) (inp : irq_input) (s : Sys) :
    ((irq_slot cfg i inp s).1.state j).sw_pin = (s.state j).sw_pin ∧
      ((irq_slot cfg i inp s).1.state j).configured = (s.state j).configured := by
  by_cases hj : j = i
  · subst hj
    by_cases hconf : (s.state j).configured = true
    · by_cases hev : inp.events &&& event_mask = 0
      · rw [irq_slot_no_event cfg j inp s hev]; exact ⟨rfl, rfl⟩
      · by_cases hsw : (s.state j).sw = !inp.gpio
        · rw [irq_slot_same cfg j inp s hconf hev hsw]; exact ⟨rfl, rfl⟩
        · by_cases hel : u32_sub (time_us_32 inp.t) (s.state j).sw_mtime <
              cfg.SWITCH_DEBOUNCE_US
          · rw [irq_slot_defer cfg j inp s hconf hev hsw hel]; simp
          · rw [irq_slot_accept cfg j inp s hconf hev hsw (by omega)]; simp
    · rw [irq_slot_unconfigured cfg j inp s (by simpa using hconf)]; exact ⟨rfl, rfl⟩
  · rw [irq_slot_state_other cfg i j inp s hj]; exact ⟨rfl, rfl⟩

theorem irq_loop_keeps_binding (cfg : Config) (inp : Nat → irq_input) (j : Nat) (n : Nat) :
    ∀ (lo : Nat) (s : Sys),
      ((irq_loop cfg inp lo n s).1.state j).sw_pin = (s.state j).sw_pin ∧
        ((irq_loop cfg inp lo n s).1.state j).configured = (s.state j).configured := by
  induction n with
  | zero => intro lo s; exact ⟨rfl, rfl⟩
  | succ n ih =>
    intro lo s
    simp only [irq_loop]
    obtain ⟨h1, h2⟩ := ih (lo + 1) (irq_slot cfg lo (inp lo) s).1
    obtain ⟨h3, h4⟩ := irq_slot_keeps_binding cfg lo j (inp lo) s
    exact ⟨by rw [h1, h3], by rw [h2, h4]⟩

/-- C18, entries do not interfere. The handler leaves completely unchanged every entry
that is unconfigured and every entry for which it finds no rising or falling edge event
pending, and the iteration for such an entry makes no call at all, so it offers no event.
The callback for entry `i` changes no other entry. Neither the handler, nor the callback,
nor a read changes the pin or the configured flag of any entry; a read leaves the whole
table as it is. -/
theorem entries_independent (cfg : Config) (s : Sys) :
    (∀ (inp : Nat → irq_input) (j : Nat),
      ((s.state j).configured = false ∨ (inp j).events &&& event_mask = 0) →
      (irq_handler_sw cfg inp s).1.state j = s.state j ∧
        irq_slot cfg j (inp j) (irq_loop cfg inp 0 j s).1 = ((irq_loop cfg inp 0 j s).1, [])) ∧
      (∀ (id : Int) (i : Nat) (gpio : Bool) (j : Nat), j ≠ i →
        (debounce id i gpio s).1.state j = s.state j) ∧
      (∀ (inp : Nat → irq_input) (j : Nat),
        ((irq_handler_sw cfg inp s).1.state j).sw_pin = (s.state j).sw_pin ∧
          ((irq_handler_sw cfg inp s).1.state j).configured = (s.state j).configured) ∧
      (∀ (id : Int) (i : Nat) (gpio : Bool) (j : Nat),
        ((debounce id i gpio s).1.state j).sw_pin = (s.state j).sw_pin ∧
          ((debounce id i gpio s).1.state j).configured = (s.state j).configured) ∧
      (∀ (ev : switch_event) (s1 : Sys), switch_read_blocking s = some (ev, s1) →
        s1.state = s.state) := by
  refine ⟨?_, ?_, ?_, ?_, ?_⟩
  · intro inp j hj
    have hpre : (irq_loop cfg inp 0 j s).1.state j = s.state j :=
      irq_loop_state_outside cfg inp j 0 s j (Or.inr (by omega))
    have hbody : irq_slot cfg j (inp j) (irq_loop cfg inp 0 j s).1 =
        ((irq_loop cfg inp 0 j s).1, []) := by
      rcases hj with hj | hj
      · exact irq_slot_unconfigured cfg j (inp j) _ (by rw [hpre]; exact hj)
      · exact irq_slot_no_event cfg j (inp j) _ hj
    refine ⟨?_, hbody⟩
    by_cases hlt : j < cfg.NUM_SWITCHES
    · rw [(irq_handler_sw_state cfg inp s j hlt).1, hbody, hpre]
    · exact irq_loop_state_outside cfg inp cfg.NUM_SWITCHES 0 s j (Or.inr (by omega))
  · intro id i gpio j hj
    obtain ⟨st, q, _, hshape⟩ := debounce_shape id i gpio s
    rw [hshape]
    simp [Function.update_noteq hj]
  · intro inp j
    exact irq_loop_keeps_binding cfg inp j cfg.NUM_SWITCHES 0 s
  · intro id i gpio j
    unfold debounce
    by_cases hj : j = i
    · subst hj
      simp only
      split_ifs <;> simp [set_state]
    · simp only
      split_ifs <;> simp [set_state, Function.update_noteq hj]
  · intro ev s1 h
    obtain ⟨rest, _, hs1⟩ := switch_read_blocking_some s s1 ev h
    rw [hs1]

/-- Entries not interfering, at work: the unconfigured entry 0 and the configured entry 2
of `pending_sys` while an edge is pending on switch 1 only. -/
theorem entries_independent_witness :
    (irq_handler_sw defaultConfig (edge_on 1 true 5300 4) pending_sys).1.state 0 =
        pending_sys.state 0 ∧
      (irq_handler_sw defaultConfig (edge_on 1 true 5300 4) pending_sys).1.state 2 =
        pending_sys.state 2 :=
  ⟨((entries_independent defaultConfig pending_sys).1 (edge_on 1 true 5300 4) 0
      (Or.inl (by decide))).1,
    ((entries_independent defaultConfig pending_sys).1 (edge_on 1 true 5300 4) 2
      (Or.inr (by decide))).1⟩

/-! ## Elapsed time on the 32-bit counter -/

/-- The `uint32_t` difference is subtraction modulo `2^32`. -/
theorem u32_sub_mod (a b : Nat) :
    ((u32_sub a b : Nat) : Int) = ((a : Int) - (b : Int)) % 2 ^ 32 := by
  unfold u32_sub
  omega

/-- C19, wrap-safe elapsed time. For a configured entry `i` with an edge event pending and
a sampled state different from the stored one, the handler defers (leaves `sw` as it is and
calls `add_alarm_in_us`) exactly when the `uint32_t` difference of the time read and
`sw_mtime` is below `SWITCH_DEBOUNCE_US`, and accepts otherwise; that difference is
`(now - sw_mtime) mod 2^32`. Hence, when `sw_mtime` was read from the counter at running
time `t0` and the time is now read at `t0 + d` with `d < 2^32`, the difference is `d`
itself, and the handler defers exactly when `d < SWITCH_DEBOUNCE_US`, also when the 32-bit
counter has wrapped in between. -/
theorem elapsed_wrap_safe (cfg : Config) (inp : Nat → irq_input) (s : Sys) (i : Nat)
    (t0 d : Nat) (hi : i < cfg.NUM_SWITCHES)
    (hconf : (s.state i).configured = true)
    (hev : (inp i).events &&& event_mask ≠ 0)
    (hsw : (s.state i).sw ≠ !(inp i).gpio)
    (hprev : (s.state i).sw_mtime = time_us_32 t0)
    (hnow : (inp i).t = t0 + d) (hd : d < 2 ^ 32) :
    ((u32_sub (time_us_32 (inp i).t) (s.state i).sw_mtime : Nat) : Int) =
        ((time_us_32 (inp i).t : Int) - ((s.state i).sw_mtime : Int)) % 2 ^ 32 ∧
      u32_sub (time_us_32 (inp i).t) (s.state i).sw_mtime = d ∧
      (((irq_handler_sw cfg inp s).1.state i).sw = (s.state i).sw ↔
        u32_sub (time_us_32 (inp i).t) (s.state i).sw_mtime < cfg.SWITCH_DEBOUNCE_US) ∧
      (d < cfg.SWITCH_DEBOUNCE_US →
        (irq_handler_sw cfg inp s).1.state i =
            { s.state i with sw_alarm := ((irq_handler_sw cfg inp s).1.state i).sw_alarm } ∧
          ∃ ret : Int, Call.add_alarm_in_us cfg.SWITCH_DEBOUNCE_US i true ret ∈
            (irq_slot cfg i (inp i) (irq_loop cfg inp 0 i s).1).2) ∧
      (cfg.SWITCH_DEBOUNCE_US ≤ d →
        ((irq_handler_sw cfg inp s).1.state i).sw = !(inp i).gpio ∧
          ((irq_handler_sw cfg inp s).1.state i).sw_mtime = time_us_32 (inp i).t ∧
          ∃ ok : Bool, Call.queue_try_add { num := i % 256, sw := !(inp i).gpio } ok ∈
            (irq_slot cfg i (inp i) (irq_loop cfg inp 0 i s).1).2) := by
  obtain ⟨hfin, hpre⟩ := irq_handler_sw_state cfg inp s i hi
  have hel : u32_sub (time_us_32 (inp i).t) (s.state i).sw_mtime = d := by
    rw [hprev, hnow]
    exact u32_sub_elapsed t0 d hd
  have hdefer : u32_sub (time_us_32 (inp i).t) (s.state i).sw_mtime < cfg.SWITCH_DEBOUNCE_US →
      irq_slot cfg i (inp i) (irq_loop cfg inp 0 i s).1 = _ := fun h =>
    irq_slot_defer cfg i (inp i) (irq_loop cfg inp 0 i s).1
      (by rw [hpre]; exact hconf) hev (by rw [hpre]; exact hsw) (by rw [hpre]; exact h)
  have haccept : cfg.SWITCH_DEBOUNCE_US ≤ u32_sub (time_us_32 (inp i).t) (s.state i).sw_mtime →
      irq_slot cfg i (inp i) (irq_loop cfg inp 0 i s).1 = _ := fun h =>
    irq_slot_accept cfg i (inp i) (irq_loop cfg inp 0 i s).1
      (by rw [hpre]; exact hconf) hev (by rw [hpre]; exact hsw) (by rw [hpre]; exact h)
  refine ⟨?_, hel, ?_, ?_, ?_⟩
  · exact u32_sub_mod _ _
  · constructor
    · intro hsame
      by_contra hnot
      have hbody := haccept (by omega)
      rw [hfin, hbody] at hsame
      simp only [Function.update_same] at hsame
      exact hsw hsame.symm
    · intro h
      rw [hfin, hdefer h, hpre]
      simp
  · intro h
    have hbody := hdefer (by rw [hel]; exact h)
    rw [hpre] at hbody
    constructor
    · rw [hfin, hbody]; simp
    · rw [hbody]
      exact ⟨_, List.mem_cons_of_mem _
        (List.mem_append_right _ (List.mem_singleton_self _))⟩
  · intro h
    have hbody := haccept (by rw [hel]; exact h)
    rw [hpre] at hbody
    refine ⟨by rw [hfin, hbody]; simp, by rw [hfin, hbody]; simp, ?_⟩
    rw [hbody]
    exact ⟨_, List.mem_cons_of_mem _
      (List.mem_append_right _ (List.mem_singleton_self _))⟩

/-- Wrap-safe elapsed time at work: switch 1 changed 100 us before the 32-bit counter
wrapped and an edge arrives 600 us later, when the counter reads 500. -/
theorem elapsed_wrap_safe_witness :
    u32_sub (time_us_32 (edge_on 1 false 4294967796 3 1).t)
        ((set_state sample_sys 1 { sample_state with sw_mtime := 4294967196 }).state 1).sw_mtime
      = 600 :=
  (elapsed_wrap_safe defaultConfig (edge_on 1 false 4294967796 3)
    (set_state sample_sys 1 { sample_state with sw_mtime := 4294967196 }) 1 4294967196 600
    (by decide) (by decide) (by decide) (by decide) (by decide) (by decide) (by decide)).2.1

/-! ## Events alternate -/

theorem attempts_append (l1 l2 : List Call) :
    attempts (l1 ++ l2) = attempts l1 ++ attempts l2 := by
  unfold attempts
  exact List.filterMap_append _ _ _

theorem changes_from_nil_sw (before after : Sys) (lo n : Nat)
    (h : ∀ j, lo ≤ j → j < lo + n → (before.state j).sw = (after.state j).sw) :
    changes_from before after lo n = [] := by
  unfold changes_from
  rw [List.filterMap_eq_nil_iff]
  intro j hj
  obtain ⟨h1, h2⟩ := List.mem_range'_1.mp hj
  simp [h j h1 h2]

/-- One iteration of the handler offers an event exactly for the change it made. -/
theorem irq_slot_attempts (cfg : Config) (i : Nat) (inp : irq_input) (s : Sys) (hi : i < 256) :
    attempts (irq_slot cfg i inp s).2 = changes_from s (irq_slot cfg i inp s).1 i 1 := by
  have hmod : i % 256 = i := Nat.mod_eq_of_lt hi
  rw [changes_from_one]
  by_cases hconf : (s.state i).configured = true
  · by_cases hev : inp.events &&& event_mask = 0
    · rw [irq_slot_no_event cfg i inp s hev]; simp [attempts]
    · by_cases hsw : (s.state i).sw = !inp.gpio
      · rw [irq_slot_same cfg i inp s hconf hev hsw]; simp [attempts]
      · by_cases hel : u32_sub (time_us_32 inp.t) (s.state i).sw_mtime < cfg.SWITCH_DEBOUNCE_US
        · rw [irq_slot_defer cfg i inp s hconf hev hsw hel]
          by_cases h0 : 0 ≤ (s.state i).sw_alarm <;> simp [attempts, h0]
        · rw [irq_slot_accept cfg i inp s hconf hev hsw (by omega)]
          by_cases h0 : 0 ≤ (s.state i).sw_alarm <;> simp [attempts, h0, hmod, hsw]
  · rw [irq_slot_unconfigured cfg i inp s (by simpa using hconf)]; simp [attempts]

theorem irq_loop_attempts (cfg : Config) (inp : Nat → irq_input) (n : Nat) :
    ∀ (lo : Nat) (s : Sys), lo + n ≤ 256 →
      attempts (irq_loop cfg inp lo n s).2 =
        changes_from s (irq_loop cfg inp lo n s).1 lo n := by
  induction n with
  | zero => intro lo s _; simp [irq_loop, changes_from, attempts]
  | succ n ih =>
    intro lo s hlo
    simp only [irq_loop]
    rw [attempts_append, ih (lo + 1) _ (by omega), irq_slot_attempts cfg lo (inp lo) s (by omega),
      changes_from_succ s (irq_loop cfg inp (lo + 1) n (irq_slot cfg lo (inp lo) s).1).1 lo n]
    congr 1
    · apply changes_from_congr
      intro j hj1 hj2
      refine ⟨rfl, ?_⟩
      exact (irq_loop_state_outside cfg inp n (lo + 1) _ j (Or.inl (by omega))).symm
    · apply changes_from_congr
      intro j hj1 hj2
      exact ⟨irq_slot_state_other cfg lo j (inp lo) s (by omega), rfl⟩

/-- The callback offers an event exactly for the change it made. -/
theorem debounce_attempts (id : Int) (i : Nat) (gpio : Bool) (s : Sys) (hi : i < 256) :
    attempts (debounce id i gpio s).2.1 = changes_from s (debounce id i gpio s).1 i 1 := by
  have hmod : i % 256 = i := Nat.mod_eq_of_lt hi
  rw [changes_from_one]
  unfold debounce
  by_cases hsw : (s.state i).sw = !gpio
  · simp [hsw, set_state, attempts]
  · simp [hsw, set_state, attempts, hmod]

/-- A `switch_config` that returns has offered nothing to the queue. -/
theorem switch_config_attempts (cfg : Config) (num sw_pin : Nat) (s : Sys)
    (r : Sys × List Call) (hr : switch_config cfg num sw_pin s = Except.ok r) :
    attempts r.2 = [] := by
  unfold switch_config at hr
  cases hc : (s.state num).configured with
  | true => simp [hc] at hr
  | false =>
    simp only [hc, if_false, Bool.false_eq_true, Except.ok.injEq] at hr
    subst hr
    cases cfg.SWITCH_PULL_UP <;> simp [attempts]

/-- A firing alarm is an outstanding one; state and calls are those of its callback. -/
theorem fire_alarm_some_log (id : Int) (gpio : Bool) (s : Sys) (r : Sys × List Call)
    (hr : fire_alarm id gpio s = some r) :
    ∃ a ∈ s.alarms,
      r = ((debounce a.id a.slot gpio { s with alarms := cancel_alarm s.alarms a.id }).1,
        (debounce a.id a.slot gpio { s with alarms := cancel_alarm s.alarms a.id }).2.1) := by
  unfold fire_alarm at hr
  split at hr
  · exact absurd hr (by simp)
  · rename_i a hfind
    have hzero := debounce_returns_zero a.id a.slot gpio
      { s with alarms := cancel_alarm s.alarms a.id }
    simp only [hzero, if_true, Option.some.injEq] at hr
    subst hr
    exact ⟨a, List.mem_of_find?_eq_some hfind, rfl⟩

/-- Every action offers to the queue exactly the changes it made, in order. -/
theorem step_attempts (cfg : Config) (a : Action) (s : Sys) (r : Sys × List Call)
    (h256 : cfg.NUM_SWITCHES ≤ 256) (hpool : pool_ok cfg s) (hr : step cfg a s = some r) :
    attempts r.2 = changes cfg s r.1 := by
  cases a with
  | config num sw_pin =>
    simp only [step] at hr
    split at hr
    · rename_i r0 h0
      simp only [Option.some.injEq] at hr
      subst hr
      rw [switch_config_attempts cfg num sw_pin s r0 h0,
        (switch_config_ok cfg num sw_pin s r0 h0).1]
      symm
      apply changes_from_nil_sw
      intro j _ _
      by_cases e : j = num
      · subst e; simp [set_state]
      · simp [set_state, Function.update_noteq e]
    · exact absurd hr (by simp)
  | irq inp =>
    simp only [step, Option.some.injEq] at hr
    subst hr
    exact irq_loop_attempts cfg inp cfg.NUM_SWITCHES 0 s (by omega)
  | fire id gpio =>
    obtain ⟨a, hmem, hr1⟩ := fire_alarm_some_log id gpio s r hr
    have hslot : a.slot < cfg.NUM_SWITCHES := (hpool.1 a hmem).2.1
    rw [hr1]
    simp only
    rw [debounce_attempts a.id a.slot gpio _ (by omega)]
    unfold changes
    rw [changes_from_single s _ a.slot ?_ cfg.NUM_SWITCHES 0 (by omega) (by omega)]
    · exact changes_from_congr _ _ _ _ _ _ (fun j _ _ => ⟨rfl, rfl⟩)
    · intro j hj
      obtain ⟨st, q, _, hshape⟩ := debounce_shape a.id a.slot gpio
        { s with alarms := cancel_alarm s.alarms a.id }
      rw [hshape]
      simp [Function.update_noteq hj]
  | read =>
    simp only [step] at hr
    cases hrb : switch_read_blocking s with
    | none =>
      simp only [hrb, Option.some.injEq] at hr
      subst hr
      rw [show changes cfg s s = [] from changes_from_nil_sw s s _ _ (fun _ _ _ => rfl)]
      simp [attempts]
    | some p =>
      obtain ⟨ev, s1⟩ := p
      simp only [hrb, Option.some.injEq] at hr
      subst hr
      obtain ⟨rest, _, hs1⟩ := switch_read_blocking_some s s1 ev hrb
      subst hs1
      rw [show changes cfg s { s with queue := { s.queue with elems := rest } } = [] from
        changes_from_nil_sw s _ _ _ (fun _ _ _ => rfl)]
      simp [attempts]

/-- Along a sequence of actions the events offered to the queue are exactly the accepted
changes, in order. -/
theorem run_attempts (cfg : Config) (h256 : cfg.NUM_SWITCHES ≤ 256) (acts : List Action) :
    ∀ (s : Sys) (r : Sys × List Call), pool_ok cfg s → run cfg acts s = some r →
      attempts r.2 = accepted cfg acts s := by
  induction acts with
  | nil =>
    intro s r _ hr
    simp only [run, Option.some.injEq] at hr
    subst hr
    simp [attempts, accepted]
  | cons a rest ih =>
    intro s r hpool hr
    simp only [run] at hr
    split at hr
    · exact absurd hr (by simp)
    · rename_i r1 h1
      split at hr
      · exact absurd hr (by simp)
      · rename_i r2 h2
        simp only [Option.some.injEq] at hr
        subst hr
        simp only [accepted, h1]
        rw [attempts_append, step_attempts cfg a s r1 h256 hpool h1,
          ih r1.1 r2 (pool_ok_step cfg a s r1 hpool h1) h2]

theorem toggles_append (l1 l2 : List Bool) :
    ∀ b : Bool, toggles b (l1 ++ l2) = (toggles b l1).bind (fun c => toggles c l2) := by
  induction l1 with
  | nil => intro b; simp [toggles]
  | cons x xs ih =>
    intro b
    simp only [List.cons_append, toggles]
    split_ifs
    · exact ih x
    · rfl

theorem events_of_append (i : Nat) (l1 l2 : List switch_event) :
    events_of i (l1 ++ l2) = events_of i l1 ++ events_of i l2 := by
  simp [events_of]

/-- Among the changes over a range of entries, those of entry `i`. -/
theorem events_of_changes_from (before after : Sys) (i : Nat) (n : Nat) :
    ∀ lo, lo ≤ i → i < lo + n →
      events_of i (changes_from before after lo n) =
        if (before.state i).sw = (after.state i).sw then [] else [(after.state i).sw] := by
  induction n with
  | zero => intro lo h1 h2; omega
  | succ n ih =>
    intro lo h1 h2
    rw [changes_from_succ, events_of_append, changes_from_one]
    by_cases e : lo = i
    · subst e
      have hrest : events_of lo (changes_from before after (lo + 1) n) = [] := by
        unfold events_of changes_from
        simp only [List.map_eq_nil_iff, List.filter_eq_nil_iff, List.mem_filterMap,
          List.mem_range'_1]
        rintro ev ⟨j, ⟨hj1, _⟩, hev⟩
        split_ifs at hev
        simp only [Option.some.injEq] at hev
        subst hev
        simp only [decide_eq_true_eq]
        omega
      rw [hrest]
      split_ifs <;> simp [events_of]
    · rw [ih (lo + 1) (by omega) (by omega)]
      have hhead : events_of i
          (if (before.state lo).sw = (after.state lo).sw then []
            else [({ num := lo, sw := (after.state lo).sw } : switch_event)]) = [] := by
        split_ifs <;> simp [events_of, e]
      rw [hhead]
      simp

/-- The changes of entry `i` in one action lead from its old `sw` to its new one. -/
theorem toggles_changes (cfg : Config) (before after : Sys) (i : Nat)
    (hi : i < cfg.NUM_SWITCHES) :
    toggles (before.state i).sw (events_of i (changes cfg before after)) =
      some (after.state i).sw := by
  unfold changes
  rw [events_of_changes_from before after i cfg.NUM_SWITCHES 0 (by omega) (by omega)]
  by_cases h : (before.state i).sw = (after.state i).sw
  · simp [h, toggles]
  · simp only [h, if_false, toggles]
    cases hb : (before.state i).sw <;> cases ha : (after.state i).sw <;> simp_all

theorem toggles_accepted (cfg : Config) (i : Nat) (hi : i < cfg.NUM_SWITCHES)
    (acts : List Action) :
    ∀ (s : Sys) (r : Sys × List Call), run cfg acts s = some r →
      toggles (s.state i).sw (events_of i (accepted cfg acts s)) = some (r.1.state i).sw := by
  induction acts with
  | nil =>
    intro s r hr
    simp only [run, Option.some.injEq] at hr
    subst hr
    simp [accepted, events_of, toggles]
  | cons a rest ih =>
    intro s r hr
    simp only [run] at hr
    split at hr
    · exact absurd hr (by simp)
    · rename_i r1 h1
      split at hr
      · exact absurd hr (by simp)
      · rename_i r2 h2
        simp only [Option.some.injEq] at hr
        subst hr
        simp only [accepted, h1]
        rw [events_of_append, toggles_append, toggles_changes cfg s r1.1 i hi]
        exact ih r1.1 r2 h2

/-- C20, alternating events. In every execution from program start, in a build with at
most 256 switches: the events offered to the queue are exactly the accepted changes, in
order; one iteration of the handler, and likewise one callback, offers an event exactly
when it changed `sw` of its entry, and the event carries the index of that entry and its
`sw` right after. Consequently the values offered for any switch `i`, started from the
initial `false`, alternate and end in the current `sw` of entry `i`, and the first event
ever offered for switch `i` is `(i, true)`. -/
theorem events_alternate (cfg : Config) (acts : List Action) (s : Sys) (log : List Call)
    (i : Nat) (h256 : cfg.NUM_SWITCHES ≤ 256) (hi : i < cfg.NUM_SWITCHES)
    (hrun : run cfg acts (switch_init cfg boot).1 = some (s, log)) :
    attempts log = accepted cfg acts (switch_init cfg boot).1 ∧
      (∀ (j : Nat) (inp : irq_input) (s0 : Sys), j < 256 →
        attempts (irq_slot cfg j inp s0).2 =
          if (s0.state j).sw = ((irq_slot cfg j inp s0).1.state j).sw then []
          else [{ num := j, sw := ((irq_slot cfg j inp s0).1.state j).sw }]) ∧
      (∀ (id : Int) (j : Nat) (gpio : Bool) (s0 : Sys), j < 256 →
        attempts (debounce id j gpio s0).2.1 =
          if (s0.state j).sw = ((debounce id j gpio s0).1.state j).sw then []
          else [{ num := j, sw := ((debounce id j gpio s0).1.state j).sw }]) ∧
      toggles false (events_of i (attempts log)) = some (s.state i).sw ∧
      toggles false (events_of i (accepted cfg acts (switch_init cfg boot).1)) =
        some (s.state i).sw ∧
      (∀ (e : switch_event) (rest : List switch_event),
        (attempts log).filter (fun e => decide (e.num = i)) = e :: rest →
        e = { num := i, sw := true }) := by
  have hacc := run_attempts cfg h256 acts _ (s, log) (pool_ok_boot cfg) hrun
  have htog := toggles_accepted cfg i hi acts _ (s, log) hrun
  have hinit : ((switch_init cfg boot).1.state i).sw = false := rfl
  simp only [hinit] at htog hacc
  refine ⟨hacc, ?_, ?_, by rw [hacc]; exact htog, htog, ?_⟩
  · intro j inp s0 hj
    rw [irq_slot_attempts cfg j inp s0 hj, changes_from_one]
  · intro id j gpio s0 hj
    rw [debounce_attempts id j gpio s0 hj, changes_from_one]
  · intro e rest hfilter
    have hmem : e ∈ (attempts log).filter (fun e => decide (e.num = i)) := by
      rw [hfilter]; exact List.mem_cons_self _ _
    have hnum : e.num = i := by simpa using (List.mem_filter.mp hmem).2
    rw [← hacc] at htog
    unfold events_of at htog
    rw [hfilter] at htog
    simp only [List.map_cons, toggles, Bool.not_false] at htog
    have hsw : e.sw = true := by
      by_contra hne
      simp [hne] at htog
    cases e
    simp_all

/-- Alternating events at work: the run of `switch_config(1, 15)` and a press of switch 1
at 5000 us from program start. -/
theorem events_alternate_witness :
    toggles false (events_of 1 (accepted defaultConfig
        [Action.config 1 15, Action.irq (edge_on 1 false 5000 3)]
        (switch_init defaultConfig boot).1)) =
      some ((irq_handler_sw defaultConfig (edge_on 1 false 5000 3)
        (set_state (switch_init defaultConfig boot).1 1
          { zero_state with configured := true, sw_pin := 15 % 256 })).1.state 1).sw :=
  (events_alternate defaultConfig [Action.config 1 15, Action.irq (edge_on 1 false 5000 3)]
    (irq_handler_sw defaultConfig (edge_on 1 false 5000 3)
        (set_state (switch_init defaultConfig boot).1 1
          { zero_state with configured := true, sw_pin := 15 % 256 })).1
    _ 1 (by decide) (by decide) rfl).2.2.2.2.1

end Switch
